import Mathlib

/-!
Verification model of the cnext collection library (HashTable.c / Vector.c).

The C code is shallowly embedded: structs become Lean structures, node
pointers into the vector's backing array become indices (`Option Nat`, with
`none` for NULL), u64 arithmetic is `Nat` reduced `% 2 ^ 64` where overflow
matters, and fallible functions return `Option`.  Keys and values, which the
C code handles as type-erased `void *` driven by external TypeDescriptor
capability tables, are modelled as `Int` payloads plus explicit descriptor
records; descriptor calls (copy/destroy) that only manage heap ownership are
identity/no-ops in the pure model.  The red-black-tree bucket primitive, the
generic List helpers and the type-descriptor registry live outside src/ and
are modelled from the spec where needed; such definitions carry a
`Modelled from the spec:` doc comment.
-/

namespace CNext

/-- One slot of a Vector's backing array (struct VectorNode).  `prev`/`next`
are the intrusive chain links; C stores raw pointers into the array, the model
stores array indices.  The unused `byteOffset` field is omitted. -/
structure VectorNode where
  allocated : Bool := false
  key : Int := 0
  value : Int := 0
  typeIdx : Int := 0
  prev : Option Nat := none
  next : Option Nat := none
  deriving DecidableEq, Repr

/-- A VectorNode slot as left by `malloc`/`realloc` plus the C code's
`array[i].allocated = false` initialisation: only `allocated` is meaningful,
the other fields are uninitialised memory (defaulted in the model, and never
read by the code before being written). -/
def blankNode : VectorNode := {}

/-- struct Vector.  `arraySize` is kept as its own field (it is not always
`array.length` mid-operation: during the grow path of `kvVectorSetEntry_` the
C code reallocates the array before updating `vector->arraySize`, and the
relink helpers read the stale `arraySize`).  `keyTypeIdx` stands for the
`keyType` TypeDescriptor pointer (its registry index). -/
structure Vector where
  arraySize : Nat := 0
  array : List VectorNode := []
  size : Nat := 0
  head : Option Nat := none
  tail : Option Nat := none
  keyTypeIdx : Int := 0
  deriving DecidableEq, Repr

/-- Read slot `i` of the backing array (`vector->array[i]`). -/
def Vector.slot (v : Vector) (i : Nat) : VectorNode := v.array.getD i blankNode

/-- Write slot `i` of the backing array through an update function.
`List.set` is a no-op out of bounds; all in-model writes are in bounds. -/
def Vector.setSlot (v : Vector) (i : Nat) (f : VectorNode → VectorNode) : Vector :=
  { v with array := v.array.set i (f (v.slot i)) }

/-- Ascending scan for the first allocated slot at index `i` or above,
structured on an explicit iteration count so that it evaluates by `decide`.
`count` only needs to be at least `arraySize - i`. -/
def findAllocFromAux (v : Vector) : Nat → Nat → Option Nat
  | 0, _ => none
  | count + 1, i =>
    if i < v.arraySize then
      if (v.slot i).allocated then some i else findAllocFromAux v count (i + 1)
    else none

/-- First allocated slot at index `i` or above (the loop body shared by
`vectorFindNextAllocated`). -/
def findAllocFrom (v : Vector) (i : Nat) : Option Nat :=
  findAllocFromAux v (v.arraySize - i) i

/-- vectorFindNextAllocated (Vector.c:427): nearest allocated slot strictly
after `index`, NULL if none. -/
def vectorFindNextAllocated (v : Vector) (index : Nat) : Option Nat :=
  findAllocFrom v (index + 1)

/-- Descending scan for the first allocated slot at index `j` or below
(the loop body of `vectorFindPreviousAllocated`). -/
def findAllocDown (v : Vector) : Nat → Option Nat
  | 0 => if (v.slot 0).allocated then some 0 else none
  | j + 1 =>
    if (v.slot (j + 1)).allocated then some (j + 1) else findAllocDown v j

/-- vectorFindPreviousAllocated (Vector.c:378): nearest allocated slot
strictly before `index`, NULL if none; NULL when `index` is out of range.
Note the scan runs over candidates `index - 1` down to `0` only: the slot at
`index` itself is never examined. -/
def vectorFindPreviousAllocated (v : Vector) (index : Nat) : Option Nat :=
  if index < v.arraySize then
    match index with
    | 0 => none
    | i + 1 => findAllocDown v i
  else none

/-- vectorCreate_ (Vector.c:61), success path with a non-NULL key type:
`size` pre-allocated slots, all unallocated, empty chain. -/
def vectorNew (keyTypeIdx : Int) (size : Nat) : Vector :=
  { arraySize := size
    array := List.replicate size blankNode
    size := 0
    head := none
    tail := none
    keyTypeIdx := keyTypeIdx }

/-- vectorCreate_ (Vector.c:61): NULL keyType yields NULL. -/
def vectorCreate_ (keyTypeIdx : Option Int) (size : Nat) : Option Vector :=
  keyTypeIdx.map (fun k => vectorNew k size)

/-- The realloc step of the grow path (Vector.c:156-168): extend the backing
array to `index + 1` slots; realloc preserves the old contents and the new
slots are marked unallocated.  `arraySize` is not yet updated here (the C
code assigns it only at Vector.c:197). -/
def growExtend (v : Vector) (index : Nat) : Vector :=
  { v with array := v.array ++ List.replicate (index + 1 - v.arraySize) blankNode }

/-- The head fixup after a relocating realloc (Vector.c:179-183). -/
def growFixHead (g : Vector) : Vector :=
  { g with head := if (g.slot 0).allocated then some 0 else vectorFindNextAllocated g 0 }

/-- The tail fixup after a relocating realloc (Vector.c:187-189).  Note it
scans strictly below `arraySize - 1`: the slot at `arraySize - 1` itself is
never considered. -/
def growFixTail (g : Vector) : Vector :=
  if g.arraySize > 0 then
    { g with tail := vectorFindPreviousAllocated g (g.arraySize - 1) }
  else g

/-- The link-recomputation loop after a relocating realloc
(Vector.c:190-195): every allocated slot below (the still old) `arraySize`
gets its next/prev pointers recomputed from the allocated flags. -/
def vectorRelinkAll (g : Vector) : Vector :=
  (List.range g.arraySize).foldl
    (fun acc i =>
      if (acc.slot i).allocated then
        acc.setSlot i (fun n =>
          { n with next := vectorFindNextAllocated acc i
                   prev := vectorFindPreviousAllocated acc i })
      else acc) g

/-- The grow path of kvVectorSetEntry_ (Vector.c:155-198): extend the backing
array, and when realloc relocated the block (`moved`), recompute head, tail
and every allocated slot's links; finally update `arraySize`. -/
def kvVectorGrow (v : Vector) (index : Nat) (moved : Bool) : Vector :=
  let g := growExtend v index
  let g := if moved then vectorRelinkAll (growFixTail (growFixHead g)) else g
  { g with arraySize := index + 1 }

/-- Steps one and two of the slot installation (Vector.c:206-212): write the
value, type, key and backward link into the slot, and point the previous
allocated neighbour's forward link at it. -/
def installData (v : Vector) (index : Nat) (key value ty : Int) (pv : Option Nat) : Vector :=
  let v := v.setSlot index (fun n => { n with value := value, typeIdx := ty, key := key, prev := pv })
  match pv with
  | some p => v.setSlot p (fun n => { n with next := some index })
  | none => v

/-- Steps three and four of the slot installation (Vector.c:213-216): write
the forward link and point the next allocated neighbour's backward link at
the slot. -/
def installNext (v : Vector) (index : Nat) (nx : Option Nat) : Vector :=
  let v := v.setSlot index (fun n => { n with next := nx })
  match nx with
  | some j => v.setSlot j (fun n => { n with prev := some index })
  | none => v

/-- The metadata adjustment when the slot was previously unallocated
(Vector.c:223-234): bump `size` and recompute head and tail.  (The tail
recomputation scans strictly below `arraySize - 1`.) -/
def installFinish (v : Vector) : Vector :=
  let v := { v with size := v.size + 1 }
  let v := { v with head := if (v.slot 0).allocated then some 0 else vectorFindNextAllocated v 0 }
  { v with tail := vectorFindPreviousAllocated v (v.arraySize - 1) }

/-- The slot-installation phase of kvVectorSetEntry_ (Vector.c:200-234), run
after any growth: install the (copied) key/value/type into the slot, wire the
slot's links to its nearest allocated neighbours (patching them back), mark
it allocated, and --- when the slot was previously unallocated --- bump
`size` and recompute head and tail. -/
def kvVectorInstall (v : Vector) (index : Nat) (key value ty : Int) : Vector :=
  let v := installData v index key value ty (vectorFindPreviousAllocated v index)
  let v := installNext v index (vectorFindNextAllocated v index)
  let oldIndexAllocated := (v.slot index).allocated
  let v := v.setSlot index (fun n => { n with allocated := true })
  if oldIndexAllocated then v else installFinish v

/-- kvVectorSetEntry_ (Vector.c:121), success path with a non-NULL vector
(the C function returns NULL only for a NULL vector or a failed realloc).
`typeIdx = none` models a NULL type argument, resolved by the defaulting
logic at Vector.c:143-153 before any growth.  `moved` models whether realloc
returned a different address (Vector.c:170).  Destroying the old key/value
of an already-allocated slot only frees heap memory, a no-op here. -/
def kvVectorSetEntry_ (v : Vector) (index : Nat) (key value : Int)
    (typeIdx : Option Int) (moved : Bool) : Vector :=
  let ty : Int :=
    match typeIdx with
    | some t => t
    | none =>
      if v.arraySize > index ∧ (v.slot index).allocated then (v.slot index).typeIdx
      else match v.tail with
        | some t => (v.slot t).typeIdx
        | none => v.keyTypeIdx
  let v := if v.arraySize ≤ index then kvVectorGrow v index moved else v
  kvVectorInstall v index key value ty

/-- vectorRemove (Vector.c:475), non-NULL vector case (a NULL vector returns
-1 before reaching this body).  Returns the C return value and the new state.
The local `arraySize` variable of the C code (decremented once) appears as
`lastIdx`; `vector->arraySize` itself is never changed by remove. -/
def vectorRemove (v : Vector) (index : Nat) : Int × Vector :=
  if index < v.arraySize then
    let v := if (v.slot index).allocated then v.setSlot index (fun n => { n with allocated := false }) else v
    let lastIdx := v.arraySize - 1
    let v := (List.range (lastIdx - index)).foldl
      (fun acc j => acc.setSlot (index + j) (fun _ => acc.slot (index + j + 1))) v
    let v := v.setSlot lastIdx (fun n => { n with allocated := false })
    let v := (List.range (lastIdx - index)).foldl
      (fun acc j =>
        let i := index + j
        if (acc.slot i).allocated then
          let p := vectorFindPreviousAllocated acc i
          let acc := acc.setSlot i (fun n => { n with prev := p })
          let acc := match p with
            | some pi => acc.setSlot pi (fun n => { n with next := some i })
            | none => acc
          let nx := vectorFindNextAllocated acc i
          let acc := acc.setSlot i (fun n => { n with next := nx })
          match nx with
          | some ni => acc.setSlot ni (fun n => { n with prev := some i })
          | none => acc
        else acc) v
    let v : Vector :=
      if v.size > 0 then
        let v : Vector := { v with size := v.size - 1 }
        if v.size > 0 then
          let v : Vector := { v with head := if (v.slot 0).allocated then some 0 else vectorFindNextAllocated v 0 }
          { v with tail := vectorFindPreviousAllocated v lastIdx }
        else { v with head := none, tail := none }
      else v
    (0, v)
  else (0, v)

/-- Forward-chain traversal: follow `head` then `next` links, as
vectorDestroy, vectorSort and vectorToJson do (`for cur = head; cur; cur =
cur->next`).  Fuel-bounded so the model is total even on corrupt link
structures; `arraySize + 1` fuel is enough for any well-formed state. -/
def chainAux (v : Vector) : Nat → Option Nat → List Nat
  | 0, _ => []
  | _ + 1, none => []
  | fuel + 1, some i => i :: chainAux v fuel (v.slot i).next

/-- The list of slot indices visited by a head-to-tail traversal. -/
def chainFrom (v : Vector) : List Nat := chainAux v (v.arraySize + 1) v.head

/-- Allocated slot indices at `i` or above, ascending (the reference order the
chain is supposed to realise). -/
def allocFromAux (v : Vector) : Nat → Nat → List Nat
  | 0, _ => []
  | count + 1, i =>
    if i < v.arraySize then
      if (v.slot i).allocated then i :: allocFromAux v count (i + 1)
      else allocFromAux v count (i + 1)
    else []

/-- Allocated slot indices at `i` or above, ascending. -/
def allocFrom (v : Vector) (i : Nat) : List Nat :=
  allocFromAux v (v.arraySize - i) i

/-- All allocated slot indices, ascending. -/
def allocIndices (v : Vector) : List Nat := allocFrom v 0

/-- Link well-formedness: the backing array has `arraySize` slots, `head` is
the first allocated slot, and every allocated slot's intrusive links point at
its nearest allocated neighbours.  (`tail` is deliberately not constrained:
the code's tail fixups scan strictly below `arraySize - 1` and leave `tail`
stale whenever the top slot of the array is allocated.) -/
def Vector.WF (v : Vector) : Prop :=
  v.array.length = v.arraySize ∧
  v.head = findAllocFrom v 0 ∧
  ∀ i, i < v.arraySize → (v.slot i).allocated = true →
    (v.slot i).next = vectorFindNextAllocated v i ∧
    (v.slot i).prev = vectorFindPreviousAllocated v i

instance (v : Vector) : Decidable v.WF := by
  unfold Vector.WF
  exact inferInstance

/-- vectorClear (Vector.c:1322): NULL vector is an error (-1); otherwise walk
the chain from head destroying each visited node's key/value and marking it
unallocated, then reset size/head/tail.  The array and arraySize are kept. -/
def vectorClear : Option Vector → Int × Option Vector
  | none => (-1, none)
  | some v =>
    let v := (chainFrom v).foldl
      (fun acc i => acc.setSlot i (fun n => { n with allocated := false })) v
    (0, some { v with size := 0, head := none, tail := none })

/-- vectorNodeCompare (Vector.c:797): the qsort callback compares two nodes
by `sortOrder * sortType->compare(a->key, b->key)`, where sortType is the
vector's key descriptor and sortOrder is +1 (ascending) or -1 (descending),
both passed through thread-local storage. -/
def vectorNodeCompare (cmp : Int → Int → Int) (order : Int) (v : Vector) (i j : Nat) : Int :=
  order * cmp (v.slot i).key (v.slot j).key

/-- The ordering relation induced on slot indices by `vectorNodeCompare`:
qsort places `i` before `j` when the comparator is ≤ 0. -/
def sortRel (cmp : Int → Int → Int) (order : Int) (v : Vector) (i j : Nat) : Prop :=
  vectorNodeCompare cmp order v i j ≤ 0

instance (cmp : Int → Int → Int) (order : Int) (v : Vector) :
    DecidableRel (sortRel cmp order v) := by
  unfold sortRel
  exact fun i j => inferInstance

/-- vectorSort (Vector.c:830): NULL for a NULL vector or a NULL backing array
(a never-grown, zero-capacity vector); otherwise collect the nodes by a
head-to-tail chain traversal and sort the collected pointer array with qsort
under `vectorNodeCompare`, without touching the vector itself (the function
writes no vector or node field, so the model needs no vector output).
Modelled from the spec: qsort is libc's; the spec only requires a comparison
sort over the callback, which the model realises as an insertion sort.  The C
code mallocs the pointer array with `vector->size` entries and fills it from
the chain traversal, so a traversal longer than `size` overruns the buffer;
the model just sorts the traversal list. -/
def vectorSort (v : Vector) (cmp : Int → Int → Int) (order : Int) : Option (List Nat) :=
  if v.arraySize = 0 then none
  else some (List.insertionSort (sortRel cmp order v) (chainFrom v))

/-! ### Type descriptors and the global registry

TypeDescriptor (the `void *`-polymorphism capability table) and the
type-descriptor registry (`getTypeDescriptorFromIndex` /
`getIndexFromTypeDescriptor`) are declared outside src/.  Modelled from the
spec: a descriptor carries the operations the container code calls --- an
optional custom hash, the raw in-memory byte image and its serialized blob
image (used by htGetHash), a three-way compare, and the self-delimiting
binary decoder `fromBlob(bytes, length) = (value?, bytesConsumed)`. -/

/-- Modelled from the spec: the TypeDescriptor capability table (declared in
TypeDefinitions.h, outside src/), restricted to the operations the embedded
code paths call.  `index` is the descriptor's position in the global
registry. -/
structure TypeDescriptor where
  index : Int
  hashFunction : Option (Int → Nat) := none
  rawBytes : Int → List Nat := fun _ => []
  toBlob : Int → List Nat := fun _ => []
  compare : Int → Int → Int := fun a b => a - b
  fromBlob : List Nat → Nat → Option Int × Nat := fun _ n => (none, n)

/-- Modelled from the spec: the global type-descriptor registry
(`getTypeDescriptorFromIndex`), plus the registry index of `typeList`, the
first composite (non-primitive) type. -/
structure Registry where
  get : Int → Option TypeDescriptor
  listIndex : Int

/-! ### HashTable -/

/-- 2^64, the modulus of the C code's u64 arithmetic. -/
def U64 : Nat := 2 ^ 64

/-- One step of the Jenkins one-at-a-time loop (HashTable.c:190-194):
`hash += key[i]; hash += hash << 10; hash ^= hash >> 6;` in u64 arithmetic. -/
def jenkinsMix (h b : Nat) : Nat :=
  let h := (h + b) % U64
  let h := (h + h * 2 ^ 10) % U64
  h ^^^ (h / 2 ^ 6)

/-- The Jenkins one-at-a-time finalisation (HashTable.c:196-198):
`hash += hash << 3; hash ^= hash >> 11; hash += hash << 15;`. -/
def jenkinsFinish (h : Nat) : Nat :=
  let h := (h + h * 2 ^ 3) % U64
  let h := h ^^^ (h / 2 ^ 11)
  (h + h * 2 ^ 15) % U64

/-- The full Jenkins one-at-a-time hash of a byte sequence. -/
def jenkinsHash (bytes : List Nat) : Nat :=
  jenkinsFinish (bytes.foldl jenkinsMix 0)

/-- htGetHash (HashTable.c:156), non-NULL table and key (the NULL paths
return 0 before reaching this logic).  With a custom hash function on the key
descriptor the bucket is `hashFunction(key) % tableSize`; otherwise the key's
bytes are hashed --- the raw in-memory bytes when the key type is primitive
(`0 < index < listIndex`), or a temporary serialized blob otherwise --- with
the Jenkins one-at-a-time function, mod tableSize. -/
def htGetHash (listIndex : Int) (keyType : TypeDescriptor) (tableSize : Nat) (key : Int) : Nat :=
  match keyType.hashFunction with
  | some f => f key % tableSize
  | none =>
    let bytes :=
      if keyType.index < listIndex ∧ 0 < keyType.index then keyType.rawBytes key
      else keyType.toBlob key
    jenkinsHash bytes % tableSize

/-- The bucket index the spec's words promise (claim C7): the descriptor's
hash mod tableSize when present, else the Jenkins one-at-a-time hash --- per
byte `h += byte; h += h<<10; h ^= h>>6`, finalized by `h += h<<3; h ^= h>>11;
h += h<<15` --- of the key's raw bytes (serialized to a temporary blob first
for composite key types), mod tableSize.  Stated independently of `htGetHash`
for the refinement comparison. -/
def htGetHashSpec (listIndex : Int) (keyType : TypeDescriptor) (tableSize : Nat) (key : Int) : Nat :=
  match keyType.hashFunction with
  | some f => f key % tableSize
  | none =>
    let bytes :=
      if 0 < keyType.index ∧ keyType.index < listIndex then keyType.rawBytes key
      else keyType.toBlob key
    let h := bytes.foldl (fun h b =>
      let h := (h + b) % U64
      let h := (h + h * 2 ^ 10) % U64
      h ^^^ (h / 2 ^ 6)) 0
    let h := (h + h * 2 ^ 3) % U64
    let h := h ^^^ (h / 2 ^ 11)
    let h := (h + h * 2 ^ 15) % U64
    h % tableSize

/-- One entry of a hash bucket (struct HashNode: key, value, value type). -/
structure HashNode where
  key : Int
  value : Int
  typeIdx : Int
  deriving DecidableEq, Repr

/-- Modelled from the spec: one bucket's RedBlackTree (the ordered-tree
collaborator, not under src/), abstracted to its in-order node sequence. -/
abbrev Bucket := List HashNode

/-- struct HashTable.  `table` is the bucket array (`NULL` slots are `none`),
`keyTypeIdx` the key descriptor's registry index, and `head`/`tail` identify
the chain endpoints by (bucket index, key), standing for the C node
pointers. -/
structure HashTable where
  tableSize : Nat
  table : List (Option Bucket)
  size : Nat
  keyTypeIdx : Int
  head : Option (Nat × Int) := none
  tail : Option (Nat × Int) := none
  lastAddedTypeIdx : Option Int := none
  deriving DecidableEq, Repr

/-- htCreate_ (HashTable.c:60): NULL keyType fails; otherwise tableSize is
the implementation default `OPTIMAL_HASH_TABLE_SIZE` when the requested
minimum is 0, `REGISTER_BIT_WIDTH` when below it, the request otherwise.
Both constants live in a header outside src/, so they are parameters. -/
def htCreate_ (optimalHashTableSize registerBitWidth : Nat)
    (keyTypeIdx : Option Int) (size : Nat) : Option HashTable :=
  match keyTypeIdx with
  | none => none
  | some k =>
    let tableSize :=
      if size = 0 then optimalHashTableSize
      else if size < registerBitWidth then registerBitWidth
      else size
    some { tableSize := tableSize
           table := List.replicate tableSize none
           size := 0
           keyTypeIdx := k }

/-- Modelled from the spec: rbQuery of the ordered-tree collaborator ---
find the bucket node whose key compares equal to the probe. -/
def rbQuery (cmp : Int → Int → Int) (bucket : Bucket) (key : Int) : Option HashNode :=
  bucket.find? (fun n => cmp n.key key == 0)

/-- Modelled from the spec: rbTreeRemove of the ordered-tree collaborator ---
delete the node whose key compares equal to the probe; absent keys leave the
tree unchanged. -/
def rbTreeRemove (cmp : Int → Int → Int) (bucket : Bucket) (key : Int) : Bucket :=
  bucket.eraseP (fun n => cmp n.key key == 0)

/-- Modelled from the spec: rbTreeAddEntry of the ordered-tree collaborator
--- insert in key order, replacing the value and type when the key already
exists (entries are "added/replaced"). -/
def rbTreeAddEntry (cmp : Int → Int → Int) (bucket : Bucket) (node : HashNode) : Bucket :=
  match bucket with
  | [] => [node]
  | x :: rest =>
    if cmp node.key x.key < 0 then node :: x :: rest
    else if cmp node.key x.key == 0 then node :: rest
    else x :: rbTreeAddEntry cmp rest node

/-- Read bucket `b` of the table array. -/
def HashTable.bucket (t : HashTable) (b : Nat) : Option Bucket :=
  t.table.getD b none

/-- All nodes of the table in the induced total order: bucket-index-major,
in-bucket order, tagged with their bucket index. -/
def htAllNodes (t : HashTable) : List (Nat × HashNode) :=
  ((List.range t.tableSize).map (fun b =>
    match t.bucket b with
    | none => []
    | some tree => tree.map (fun n => (b, n)))).flatten

/-- Modelled from the spec: a chain node's forward link (`node->next`) ---
the next node in bucket-index-major, in-bucket order, identified by (bucket,
key). -/
def htNodeNext (l : List (Nat × HashNode)) (b : Nat) (k : Int) : Option (Nat × Int) :=
  match l with
  | [] => none
  | x :: rest =>
    if x.1 = b ∧ x.2.key = k then rest.head?.map (fun y => (y.1, y.2.key))
    else htNodeNext rest b k

/-- Modelled from the spec: a chain node's backward link (`node->prev`). -/
def htNodePrev (l : List (Nat × HashNode)) (b : Nat) (k : Int) : Option (Nat × Int) :=
  htNodeNext l.reverse b k

/-- htRemoveEntry (HashTable.c:476): -1 for a NULL table or key; otherwise
hash the key, and if its bucket exists: when the key is found there, demote
head/tail past the node if it was an endpoint and decrement size; delegate
the deletion to the bucket tree and free the tree when it empties; return 0
regardless of whether the key was present. -/
def htRemoveEntry (listIndex : Int) (keyType : TypeDescriptor) :
    Option HashTable → Option Int → Int × Option HashTable
  | none, _ => (-1, none)
  | some t, none => (-1, some t)
  | some t, some key =>
    let index := htGetHash listIndex keyType t.tableSize key
    match t.bucket index with
    | none => (0, some t)
    | some tree =>
      let t :=
        match rbQuery keyType.compare tree key with
        | some node =>
          let nodeId := (index, node.key)
          let nodes := htAllNodes t
          let t := if t.head = some nodeId then { t with head := htNodeNext nodes index node.key } else t
          let t := if t.tail = some nodeId then { t with tail := htNodePrev nodes index node.key } else t
          { t with size := t.size - 1 }
        | none => t
      let tree := rbTreeRemove keyType.compare tree key
      let t :=
        if tree.length = 0 then { t with table := t.table.set index none }
        else { t with table := t.table.set index (some tree) }
      (0, some t)

/-- htClear (HashTable.c:1188): a NULL table is a silent no-op returning 0;
otherwise destroy every bucket tree and reset size/head/tail, returning 0. -/
def htClear : Option HashTable → Int × Option HashTable
  | none => (0, none)
  | some t =>
    (0, some { t with table := List.replicate t.tableSize none
                      size := 0, head := none, tail := none })

/-- htAddEntry_ (HashTable.c:310), non-NULL table and key (NULL arguments
return NULL first).  A NULL type defaults to `lastAddedType`, then to the
key's type.  The bucket tree is created lazily, the insert is delegated to
it, `lastAddedType` is recorded and size incremented (unconditionally, even
when the tree replaced an existing key).  Modelled from the spec: the chain
splice around the bucket (`updateTreeLinks`) maintains the bucket-index-major
in-bucket-order total order; the model keeps the head/tail endpoints at their
canonical positions in that order. -/
def htAddEntry_ (listIndex : Int) (keyType : TypeDescriptor) (t : HashTable)
    (key value : Int) (typeIdx : Option Int) : HashTable :=
  let ty : Int :=
    match typeIdx with
    | some ty => ty
    | none =>
      match t.lastAddedTypeIdx with
      | some l => l
      | none => t.keyTypeIdx
  let index := htGetHash listIndex keyType t.tableSize key
  let tree :=
    match t.bucket index with
    | none => ([] : Bucket)
    | some tr => tr
  let tree := rbTreeAddEntry keyType.compare tree { key := key, value := value, typeIdx := ty }
  let t := { t with table := t.table.set index (some tree)
                    lastAddedTypeIdx := some ty
                    size := t.size + 1 }
  let nodes := htAllNodes t
  { t with head := nodes.head?.map (fun x => (x.1, x.2.key))
           tail := nodes.getLast?.map (fun x => (x.1, x.2.key)) }

/-- Overwrite the type of the bucket node holding `key` (the C code's
`node->type = valueType` through the pointer htAddEntry returned). -/
def htSetNodeType (cmp : Int → Int → Int) (t : HashTable) (b : Nat) (key : Int) (ty : Int) :
    HashTable :=
  match t.bucket b with
  | none => t
  | some tree =>
    let fixed := tree.map (fun n => if cmp n.key key == 0 then { n with typeIdx := ty } else n)
    { t with table := t.table.set b (some fixed) }

/-! ### The binary blob codec (htFromBlob_ / vectorFromByteArray_) -/

/-- One byte of the input buffer; out-of-range reads (which would be heap
overreads in C) yield 0. -/
def readByte (bytes : List Nat) (i : Nat) : Nat := bytes.getD i 0 % 256

/-- Little-endian u16 at offset `i`. -/
def readU16LE (bytes : List Nat) (i : Nat) : Nat :=
  readByte bytes i + 256 * readByte bytes (i + 1)

/-- Little-endian u32 at offset `i`. -/
def readU32LE (bytes : List Nat) (i : Nat) : Nat :=
  readU16LE bytes i + 256 ^ 2 * readU16LE bytes (i + 2)

/-- Little-endian u64 at offset `i`. -/
def readU64LE (bytes : List Nat) (i : Nat) : Nat :=
  readU32LE bytes i + 256 ^ 4 * readU32LE bytes (i + 4)

/-- Little-endian i16 at offset `i` (two's complement). -/
def readI16LE (bytes : List Nat) (i : Nat) : Int :=
  let u := readU16LE bytes i
  if u < 2 ^ 15 then (u : Int) else (u : Int) - 2 ^ 16

/-- The result of a fromBlob call: the returned container (NULL = `none`) and
the final value of the `*length` out-parameter. -/
structure BlobDecodeResult (σ : Type) where
  result : Option σ
  lengthOut : Nat
  deriving Repr, DecidableEq

/-- The htSetKeyType calls on htFromBlob_'s exit paths (HashTable.c:1006-1014
etc.): with `inPlaceData` the owning key descriptor is restored only for
composite key types (primitive in-place keys must keep the no-destroy
descriptor); without it, always. -/
def htFinalizeKeyType (inPlace : Bool) (listIndex keyTypeIndex : Int) (t : HashTable) :
    HashTable :=
  if inPlace then
    if keyTypeIndex ≥ listIndex then { t with keyTypeIdx := keyTypeIndex } else t
  else { t with keyTypeIdx := keyTypeIndex }

/-- The entry loop of htFromBlob_ (HashTable.c:991-1102): while bytes remain
and fewer than the declared number of entries were added, read a 2-byte value
type index, decode the value then the key with the self-delimiting per-type
decoders, and add the pair.  Any failure (invalid or unregistered type index,
NULL value or key) stops early, returning the partial table with `*length` =
the current parse position.  `fuel` only bounds the recursion; each iteration
advances `index` by at least 2, so `arrayLength + 1` fuel can never run out.
The table hashes with its current key descriptor, the no-copy variant. -/
def htFromBlobLoop (reg : Registry) (inPlace : Bool) (bytes : List Nat)
    (arrayLength declaredSize : Nat) (keyType keyTypeNoCopy : TypeDescriptor)
    (keyTypeIndex : Int) : Nat → Nat → HashTable → BlobDecodeResult HashTable
  | 0, index, t => ⟨some (htFinalizeKeyType inPlace reg.listIndex keyTypeIndex t), index⟩
  | fuel + 1, index, t =>
    if index < arrayLength ∧ t.size < declaredSize then
      let typeIndex := readI16LE bytes index
      if typeIndex < 1 then
        ⟨some (htFinalizeKeyType inPlace reg.listIndex keyTypeIndex t), index⟩
      else
        match reg.get typeIndex with
        | none => ⟨some (htFinalizeKeyType inPlace reg.listIndex keyTypeIndex t), index⟩
        | some valueType =>
          let noCopyType : Option Int := (reg.get (typeIndex + 1)).map (fun d => d.index)
          let index := index + 2
          let dec := valueType.fromBlob (bytes.drop index) (arrayLength - index)
          let index := index + dec.2
          match dec.1 with
          | none => ⟨some (htFinalizeKeyType inPlace reg.listIndex keyTypeIndex t), index⟩
          | some value =>
            let kdec := keyType.fromBlob (bytes.drop index) (arrayLength - index)
            let index := index + kdec.2
            match kdec.1 with
            | none => ⟨some (htFinalizeKeyType inPlace reg.listIndex keyTypeIndex t), index⟩
            | some key =>
              let nodeBucket := htGetHash reg.listIndex keyTypeNoCopy t.tableSize key
              let t := htAddEntry_ reg.listIndex keyTypeNoCopy t key value noCopyType
              let t :=
                if inPlace then
                  if typeIndex ≥ reg.listIndex then
                    htSetNodeType keyTypeNoCopy.compare t nodeBucket key typeIndex
                  else t
                else htSetNodeType keyTypeNoCopy.compare t nodeBucket key typeIndex
              htFromBlobLoop reg inPlace bytes arrayLength declaredSize keyType
                keyTypeNoCopy keyTypeIndex fuel index t
    else ⟨some (htFinalizeKeyType inPlace reg.listIndex keyTypeIndex t), index⟩

/-- htFromBlob_ (HashTable.c:895), non-NULL array and length pointer.
`dsMarker` is the external DsMarker magic constant and `optimalHashTableSize`
and `registerBitWidth` the external table-size constants (headers outside
src/).  The input `*length` is the byte count, `bytes.length`.  Header-level
failures return NULL: a buffer shorter than the 16-byte fixed header leaves
`*length` untouched; a bad marker or version leaves it at the 0 written just
after the length check; an invalid or unregistered key type index sets it to
8; a missing no-copy key descriptor makes htCreate fail, leaving it at 0. -/
def htFromBlob_ (dsMarker optimalHashTableSize registerBitWidth : Nat) (reg : Registry)
    (inPlace : Bool) (bytes : List Nat) : BlobDecodeResult HashTable :=
  let arrayLength := bytes.length
  if arrayLength < 16 then ⟨none, arrayLength⟩
  else
    if readU16LE bytes 0 ≠ dsMarker then ⟨none, 0⟩
    else if readU32LE bytes 2 ≠ 10 then ⟨none, 0⟩
    else
      let keyTypeIndex := readI16LE bytes 6
      if keyTypeIndex < 1 then ⟨none, 8⟩
      else
        match reg.get keyTypeIndex with
        | none => ⟨none, 8⟩
        | some keyType =>
          let declaredSize := readU64LE bytes 8
          match reg.get (keyTypeIndex + 1) with
          | none => ⟨none, 0⟩
          | some keyTypeNoCopy =>
            match htCreate_ optimalHashTableSize registerBitWidth
                (some keyTypeNoCopy.index) declaredSize with
            | none => ⟨none, 0⟩
            | some t =>
              htFromBlobLoop reg inPlace bytes arrayLength declaredSize keyType
                keyTypeNoCopy keyTypeIndex (arrayLength + 1) 16 t

/-- Modelled from the spec: kvVectorAddEntry (declared in Vector.h, not under
src/) appends the entry at the next position, index = `vector->size`.  The
realloc-relocation flag is immaterial to the claims settled here and fixed to
`false`. -/
def kvVectorAddEntry (v : Vector) (key value : Int) (typeIdx : Option Int) : Vector :=
  kvVectorSetEntry_ v v.size key value typeIdx false

/-- The keyType restoration on vectorFromByteArray_'s exit paths
(Vector.c:997-1005 etc.), mirroring `htFinalizeKeyType`. -/
def vectorFinalizeKeyType (inPlace : Bool) (listIndex keyTypeIndex : Int) (v : Vector) :
    Vector :=
  if inPlace then
    if keyTypeIndex ≥ listIndex then { v with keyTypeIdx := keyTypeIndex } else v
  else { v with keyTypeIdx := keyTypeIndex }

/-- The entry loop of vectorFromByteArray_ (Vector.c:982-1072).  Unlike the
HashTable version, the C code never NULL-checks the value descriptor it looks
up, nor the key descriptor fetched in the header; calling through those NULL
pointers is undefined behaviour, modelled as an outer `none`. -/
def vectorFromByteArrayLoop (reg : Registry) (inPlace : Bool) (bytes : List Nat)
    (arrayLength declaredSize : Nat) (keyType : Option TypeDescriptor)
    (keyTypeIndex : Int) : Nat → Nat → Vector → Option (BlobDecodeResult Vector)
  | 0, index, v => some ⟨some (vectorFinalizeKeyType inPlace reg.listIndex keyTypeIndex v), index⟩
  | fuel + 1, index, v =>
    if index < arrayLength ∧ v.size < declaredSize then
      let typeIndex := readI16LE bytes index
      if typeIndex < 1 then
        some ⟨some (vectorFinalizeKeyType inPlace reg.listIndex keyTypeIndex v), index⟩
      else
        match reg.get typeIndex with
        | none => none
        | some valueType =>
          let noCopyType : Option Int := (reg.get (typeIndex + 1)).map (fun d => d.index)
          let index := index + 2
          let dec := valueType.fromBlob (bytes.drop index) (arrayLength - index)
          let index := index + dec.2
          match dec.1 with
          | none =>
            some ⟨some (vectorFinalizeKeyType inPlace reg.listIndex keyTypeIndex v), index⟩
          | some value =>
            match keyType with
            | none => none
            | some keyTypeDesc =>
              let kdec := keyTypeDesc.fromBlob (bytes.drop index) (arrayLength - index)
              let index := index + kdec.2
              match kdec.1 with
              | none =>
                some ⟨some (vectorFinalizeKeyType inPlace reg.listIndex keyTypeIndex v), index⟩
              | some key =>
                let slotIdx := v.size
                let v := kvVectorAddEntry v key value noCopyType
                let v :=
                  if inPlace then
                    if typeIndex ≥ reg.listIndex then
                      v.setSlot slotIdx (fun n => { n with typeIdx := typeIndex })
                    else v
                  else v.setSlot slotIdx (fun n => { n with typeIdx := typeIndex })
                vectorFromByteArrayLoop reg inPlace bytes arrayLength declaredSize
                  keyType keyTypeIndex fuel index v
    else some ⟨some (vectorFinalizeKeyType inPlace reg.listIndex keyTypeIndex v), index⟩

/-- vectorFromByteArray_ (Vector.c:889), non-NULL array and length pointer.
Header handling matches htFromBlob_ except that an unregistered key type is
not checked (only the no-copy variant's absence is caught, indirectly,
through vectorCreate rejecting a NULL key type with `*length` still 0). -/
def vectorFromByteArray_ (dsMarker : Nat) (reg : Registry) (inPlace : Bool)
    (bytes : List Nat) : Option (BlobDecodeResult Vector) :=
  let arrayLength := bytes.length
  if arrayLength < 16 then some ⟨none, arrayLength⟩
  else
    if readU16LE bytes 0 ≠ dsMarker then some ⟨none, 0⟩
    else if readU32LE bytes 2 ≠ 10 then some ⟨none, 0⟩
    else
      let keyTypeIndex := readI16LE bytes 6
      if keyTypeIndex < 1 then some ⟨none, 8⟩
      else
        let keyType := reg.get keyTypeIndex
        let declaredSize := readU64LE bytes 8
        match reg.get (keyTypeIndex + 1) with
        | none => some ⟨none, 0⟩
        | some keyTypeNoCopy =>
          let v := vectorNew keyTypeNoCopy.index declaredSize
          vectorFromByteArrayLoop reg inPlace bytes arrayLength declaredSize keyType
            keyTypeIndex (arrayLength + 1) 16 v

/-! ### Concrete instances used by the counterexamples and witnesses -/

/-- A sample primitive type descriptor: registry slot 1, one-byte values,
decoder consumes exactly one byte. -/
def sampleType : TypeDescriptor :=
  { index := 1
    rawBytes := fun k => [k.toNat % 256]
    fromBlob := fun bs n => if n = 0 then (none, 0) else (some (Int.ofNat (bs.headD 0)), 1) }

/-- The no-copy twin of `sampleType` at registry slot 2. -/
def sampleTypeNoCopy : TypeDescriptor :=
  { index := 2
    rawBytes := fun k => [k.toNat % 256]
    fromBlob := fun bs n => if n = 0 then (none, 0) else (some (Int.ofNat (bs.headD 0)), 1) }

/-- A sample registry holding `sampleType` and its no-copy twin; composite
types start at index 10. -/
def sampleRegistry : Registry :=
  { get := fun i => if i = 1 then some sampleType else if i = 2 then some sampleTypeNoCopy else none
    listIndex := 10 }

/-- A sample DsMarker magic value (the real constant lives in a header
outside src/; no settled claim depends on its value). -/
def sampleMarker : Nat := 43981

/-- C1's failing input: an empty vector, two appends (indices 0 and 1), then
removal of index 1 --- the last allocated node. -/
def c1Vector : Vector :=
  (vectorRemove
    (kvVectorSetEntry_
      (kvVectorSetEntry_ (vectorNew 1 0) 0 1 10 (some 1) false)
      1 2 20 (some 1) false)
    1).2

/-- C3's counterexample input: a two-slot vector with only slot 0 set, so
index 1 is in range but unallocated. -/
def c3Vector : Vector := kvVectorSetEntry_ (vectorNew 1 2) 0 10 20 (some 1) false

/-- A concrete one-entry hash table (bucket 0 holds key 3). -/
def sampleTable : HashTable :=
  { tableSize := 4
    table := [some [{ key := 3, value := 30, typeIdx := 1 }], none, none, none]
    size := 1
    keyTypeIdx := 1
    head := some (0, 3)
    tail := some (0, 3) }

/-- A well-formed three-entry vector with pairwise distinct keys 5, 3, 9. -/
def sortVector : Vector :=
  kvVectorSetEntry_
    (kvVectorSetEntry_
      (kvVectorSetEntry_ (vectorNew 1 0) 0 5 50 (some 1) false)
      1 3 30 (some 1) false)
    2 9 90 (some 1) false

/-- A structurally valid 16-byte blob header (marker `sampleMarker`, version
10, key type 1, one declared entry) followed by an invalid (zero) value type
index. -/
def badEntryTypeBytes : List Nat :=
  [0xCD, 0xAB, 10, 0, 0, 0, 1, 0, 1, 0, 0, 0, 0, 0, 0, 0, 0, 0, 99, 7]

/-! ## Theorems -/

/-- C1: the claim --- head-to-tail traversal visits exactly `size` nodes,
each allocated, in index order, after any sequence of adds and removes ---
fails on the code.  Removing the last allocated node of a vector
(`vectorRemove` of index 1 after appends at 0 and 1) leaves the predecessor's
`next` link pointing at the now-unallocated slot: the relink loop at
Vector.c:520-532 only repairs slots at or above the removed index, so no
allocated slot remains there to pull the stale link forward.  The traversal
then visits 2 nodes, one unallocated, while `size` is 1 --- contradicting the
code's own assumption (Vector.c:855-858) that every chain node is allocated
and that the chain has `size` entries, on which vectorSort's buffer size and
vectorDestroy's destructor calls rely. -/
theorem c1_remove_last_breaks_chain :
    c1Vector.size = 1 ∧
    chainFrom c1Vector = [0, 1] ∧
    (c1Vector.slot 1).allocated = false ∧
    (c1Vector.slot 0).next = some 1 := by
  decide

/-- C3 counterexample: removing an in-range but unallocated index is not a
no-op.  On a two-slot vector with only slot 0 allocated, `vectorRemove` at
index 1 decrements `size` from 1 to 0 and clears head and tail, because the
in-range branch of Vector.c:475 never checks that the removed slot was
allocated before adjusting the metadata. -/
theorem c3_unallocated_remove_not_noop :
    1 < c3Vector.arraySize ∧
    (c3Vector.slot 1).allocated = false ∧
    c3Vector.size = 1 ∧
    (vectorRemove c3Vector 1).2.size = 0 ∧
    (vectorRemove c3Vector 1).2.head = none := by
  decide

/-- Writing back the element a list position already holds is the identity. -/
theorem list_set_getElem_self {α : Type _} :
    ∀ (l : List α) (n : Nat) (a : α), l[n]? = some a → l.set n a = l
  | [], n, a, h => by simp at h
  | x :: xs, 0, a, h => by simp_all
  | x :: xs, n + 1, a, h => by
    simp only [List.getElem?_cons_succ] at h
    simp [List.set_cons_succ, list_set_getElem_self xs n a h]

/-- `getD` with default `none` returning `some` pins down the element. -/
theorem list_set_getD_self {α : Type _} (l : List (Option α)) (n : Nat) (a : Option α)
    (ha : a.isSome) (h : l.getD n none = a) : l.set n a = l := by
  apply list_set_getElem_self
  rw [List.getD_eq_getElem?_getD] at h
  cases hl : l[n]? with
  | none => rw [hl] at h; simp at h; rw [← h] at ha; simp at ha
  | some b => rw [hl] at h; simpa using h

/-- htGetHash always lands strictly below a positive tableSize (both its
branches end in `% tableSize`). -/
theorem htGetHash_lt (listIndex : Int) (keyType : TypeDescriptor)
    (tableSize : Nat) (key : Int) (h : 0 < tableSize) :
    htGetHash listIndex keyType tableSize key < tableSize := by
  unfold htGetHash
  cases keyType.hashFunction with
  | some f => exact Nat.mod_lt _ h
  | none => exact Nat.mod_lt _ h

/-- C3 amended: removal is a no-op --- same size and links, return 0 ---
exactly for an out-of-range Vector index (`index ≥ arraySize`; in-range
unallocated indices shift slots and decrement size), and for a HashTable key
not present in the table (given a table whose existing buckets are nonempty,
as every table reachable through the API is, since empty bucket trees are
destroyed eagerly). -/
theorem c3_remove_absent_noop :
    (∀ (v : Vector) (index : Nat), v.arraySize ≤ index →
      vectorRemove v index = (0, v)) ∧
    (∀ (listIndex : Int) (keyType : TypeDescriptor) (t : HashTable) (key : Int),
      0 < t.tableSize →
      (∀ b, b < t.tableSize → t.bucket b ≠ some []) →
      (∀ b, b < t.tableSize → ∀ n ∈ (t.bucket b).getD [], keyType.compare n.key key ≠ 0) →
      htRemoveEntry listIndex keyType (some t) (some key) = (0, some t)) := by
  constructor
  · intro v index h
    unfold vectorRemove
    rw [if_neg (by omega)]
  · intro listIndex keyType t key hsz hne habs
    have hidx : htGetHash listIndex keyType t.tableSize key < t.tableSize :=
      htGetHash_lt listIndex keyType t.tableSize key hsz
    cases hb : t.bucket (htGetHash listIndex keyType t.tableSize key) with
    | none => simp [htRemoveEntry, hb]
    | some tree =>
      have hmem : ∀ n ∈ tree, keyType.compare n.key key ≠ 0 := by
        intro n hn
        have := habs _ hidx n
        rw [hb] at this
        exact this hn
      have hq : rbQuery keyType.compare tree key = none := by
        unfold rbQuery
        refine List.find?_eq_none.mpr ?_
        intro n hn
        simpa using hmem n hn
      have her : rbTreeRemove keyType.compare tree key = tree := by
        unfold rbTreeRemove
        refine List.eraseP_of_forall_not ?_
        intro n hn
        simpa using hmem n hn
      have hlen : ¬ tree.length = 0 := by
        intro h0
        exact hne _ hidx (by rwa [List.length_eq_zero.mp h0] at hb)
      have hset : t.table.set (htGetHash listIndex keyType t.tableSize key) (some tree) = t.table := by
        apply list_set_getD_self _ _ _ (by simp)
        simpa [HashTable.bucket] using hb
      simp [htRemoveEntry, hb, hq, her, hlen, hset]

/-- Witness for `c3_remove_absent_noop` at concrete inputs: an out-of-range
remove on `c3Vector` and the removal of absent key 9 from `sampleTable`. -/
theorem c3_remove_absent_noop_witness :
    vectorRemove c3Vector 5 = (0, c3Vector) ∧
    htRemoveEntry 10 sampleType (some sampleTable) (some 9) = (0, some sampleTable) :=
  ⟨c3_remove_absent_noop.1 c3Vector 5 (by decide),
   c3_remove_absent_noop.2 10 sampleType sampleTable 9 (by decide) (by decide) (by decide)⟩

/-- C7: htGetHash agrees with the spec's formula --- the key descriptor's
custom hash mod tableSize when one is present, otherwise the Jenkins
one-at-a-time hash of the key's bytes (raw in-memory bytes for primitive key
types, a serialized blob for composite ones) mod tableSize --- and the result
is strictly below tableSize (tables always have a positive tableSize, see
htCreate_). -/
theorem htGetHash_bucket_spec (listIndex : Int) (keyType : TypeDescriptor)
    (tableSize : Nat) (key : Int) (h : 0 < tableSize) :
    htGetHash listIndex keyType tableSize key = htGetHashSpec listIndex keyType tableSize key ∧
    htGetHash listIndex keyType tableSize key < tableSize := by
  refine ⟨?_, htGetHash_lt listIndex keyType tableSize key h⟩
  cases hf : keyType.hashFunction with
  | some f => simp [htGetHash, htGetHashSpec, hf]
  | none =>
    by_cases hp : keyType.index < listIndex ∧ 0 < keyType.index
    · have hp' : 0 < keyType.index ∧ keyType.index < listIndex := ⟨hp.2, hp.1⟩
      simp only [htGetHash, htGetHashSpec, hf, if_pos hp, if_pos hp']
      rfl
    · have hp' : ¬(0 < keyType.index ∧ keyType.index < listIndex) := fun hc => hp ⟨hc.2, hc.1⟩
      simp only [htGetHash, htGetHashSpec, hf, if_neg hp, if_neg hp']
      rfl

/-- Witness for `htGetHash_bucket_spec` on a concrete 8-bucket table and
key 7 under `sampleType` (no custom hash, primitive key type). -/
theorem htGetHash_bucket_spec_witness :
    0 < 8 ∧
    (htGetHash 10 sampleType 8 7 = htGetHashSpec 10 sampleType 8 7 ∧
      htGetHash 10 sampleType 8 7 < 8) :=
  ⟨by decide, htGetHash_bucket_spec 10 sampleType 8 7 (by decide)⟩

/-- C8: htRemoveEntry returns -1 exactly when the table or the key argument
is NULL, and 0 in every other case --- including when the key is absent
(htRemoveEntry's body returns 0 on every path after argument validation). -/
theorem htRemoveEntry_error_iff (listIndex : Int) (keyType : TypeDescriptor)
    (t : Option HashTable) (k : Option Int) :
    ((htRemoveEntry listIndex keyType t k).1 = -1 ↔ t = none ∨ k = none) ∧
    (t ≠ none → k ≠ none → (htRemoveEntry listIndex keyType t k).1 = 0) := by
  cases t with
  | none => simp [htRemoveEntry]
  | some t =>
    cases k with
    | none => simp [htRemoveEntry]
    | some key =>
      constructor
      · simp only [htRemoveEntry]
        cases hb : t.bucket (htGetHash listIndex keyType t.tableSize key) <;> simp [hb]
      · intro _ _
        simp only [htRemoveEntry]
        cases hb : t.bucket (htGetHash listIndex keyType t.tableSize key) <;> simp [hb]

/-- Witness for `htRemoveEntry_error_iff` at concrete inputs: NULL table,
NULL key, and a present key on `sampleTable`. -/
theorem htRemoveEntry_error_iff_witness :
    ((htRemoveEntry 10 sampleType none (some 3)).1 = -1 ↔ (none : Option HashTable) = none ∨ (some 3 : Option Int) = none) ∧
    (htRemoveEntry 10 sampleType (some sampleTable) (some 3)).1 = 0 :=
  ⟨(htRemoveEntry_error_iff 10 sampleType none (some 3)).1,
   (htRemoveEntry_error_iff 10 sampleType (some sampleTable) (some 3)).2
     (by simp) (by simp)⟩

/-- C9: htCreate_ returns NULL for a NULL key descriptor; otherwise the new
table's tableSize is the implementation default when the requested minimum is
0, the platform word-width minimum when the request is below it, and the
request itself otherwise (the two constants live in headers outside src/ and
are parameters of the model). -/
theorem htCreate_tableSize (optimalHashTableSize registerBitWidth minSize : Nat) (k : Int) :
    htCreate_ optimalHashTableSize registerBitWidth none minSize = none ∧
    ∃ t, htCreate_ optimalHashTableSize registerBitWidth (some k) minSize = some t ∧
      t.tableSize =
        (if minSize = 0 then optimalHashTableSize
         else if minSize < registerBitWidth then registerBitWidth
         else minSize) ∧
      t.size = 0 ∧ t.keyTypeIdx = k :=
  ⟨rfl, _, rfl, rfl, rfl, rfl⟩

/-- C10: clearing a NULL container diverges between the two containers:
htClear(NULL) silently succeeds with 0, vectorClear(NULL) fails with -1. -/
theorem clear_null_asymmetry :
    (htClear none).1 = 0 ∧ (vectorClear none).1 = -1 :=
  ⟨rfl, rfl⟩

/-- Once the blob header has been accepted, htFromBlob_'s entry loop returns
a (possibly partial) table on every exit path --- bad entry type index,
unregistered entry type, failed value decode, failed key decode, declared
count reached, or input exhausted. -/
theorem htFromBlobLoop_isSome (reg : Registry) (inPlace : Bool) (bytes : List Nat)
    (arrayLength declaredSize : Nat) (keyType keyTypeNoCopy : TypeDescriptor)
    (keyTypeIndex : Int) :
    ∀ (fuel index : Nat) (t : HashTable),
      (htFromBlobLoop reg inPlace bytes arrayLength declaredSize keyType keyTypeNoCopy
        keyTypeIndex fuel index t).result.isSome = true := by
  intro fuel
  induction fuel with
  | zero => intro index t; rfl
  | succ n ih =>
    intro index t
    unfold htFromBlobLoop
    dsimp only
    repeat' split
    all_goals first | rfl | exact ih _ _

/-- The same for vectorFromByteArray_'s entry loop, on every run that avoids
the undefined-behaviour paths (the NULL-descriptor calls the C code never
guards). -/
theorem vectorFromByteArrayLoop_isSome (reg : Registry) (inPlace : Bool) (bytes : List Nat)
    (arrayLength declaredSize : Nat) (keyType : Option TypeDescriptor)
    (keyTypeIndex : Int) :
    ∀ (fuel index : Nat) (v : Vector) (r : BlobDecodeResult Vector),
      vectorFromByteArrayLoop reg inPlace bytes arrayLength declaredSize keyType
        keyTypeIndex fuel index v = some r → r.result.isSome = true := by
  intro fuel
  induction fuel with
  | zero =>
    intro index v r h
    simp only [vectorFromByteArrayLoop] at h
    cases h
    rfl
  | succ n ih =>
    intro index v r h
    unfold vectorFromByteArrayLoop at h
    dsimp only at h
    repeat' split at h
    all_goals
      first
      | (cases h; rfl)
      | exact Option.noConfusion h
      | exact ih _ _ _ h

/-- C2 counterexample: on a buffer shorter than the fixed 16-byte header,
htFromBlob_ and vectorFromByteArray_ return NULL --- not a partially
populated container --- and leave the length out-parameter at its input value
(3 here), not at the 0 bytes actually consumed: the early return at
HashTable.c:916-923 / Vector.c:916-923 fires before `*length = 0` is
written. -/
theorem c2_short_buffer_counterexample :
    (htFromBlob_ sampleMarker 16 64 sampleRegistry false [1, 2, 3]).result = none ∧
    (htFromBlob_ sampleMarker 16 64 sampleRegistry false [1, 2, 3]).lengthOut = 3 ∧
    vectorFromByteArray_ sampleMarker sampleRegistry false [1, 2, 3] =
      some { result := none, lengthOut := 3 } := by
  decide

/-- C2 amended: entry-level failures (invalid or unregistered value type
index, failed value or key sub-decode) do stop parsing early and return the
partially-populated container with `*length` at the parse position; but
header-level failures return NULL instead of a partial container, with
`*length` left at the input length for a short buffer, at 0 for a bad marker
or version (or a missing no-copy key descriptor, which makes container
creation fail), and at 8 for an invalid key type index (for htFromBlob_ also
an unregistered one).  The vector statements are conditioned on the run
avoiding the NULL-descriptor calls vectorFromByteArray_ never guards
(modelled as the outer `none`). -/
theorem fromBlob_invalid_input (dsMarker optimalHashTableSize registerBitWidth : Nat)
    (reg : Registry) (inPlace : Bool) (bytes : List Nat) :
    (bytes.length < 16 →
      htFromBlob_ dsMarker optimalHashTableSize registerBitWidth reg inPlace bytes =
        { result := none, lengthOut := bytes.length } ∧
      vectorFromByteArray_ dsMarker reg inPlace bytes =
        some { result := none, lengthOut := bytes.length }) ∧
    (16 ≤ bytes.length → readU16LE bytes 0 ≠ dsMarker →
      htFromBlob_ dsMarker optimalHashTableSize registerBitWidth reg inPlace bytes =
        { result := none, lengthOut := 0 } ∧
      vectorFromByteArray_ dsMarker reg inPlace bytes =
        some { result := none, lengthOut := 0 }) ∧
    (16 ≤ bytes.length → readU16LE bytes 0 = dsMarker → readU32LE bytes 2 ≠ 10 →
      htFromBlob_ dsMarker optimalHashTableSize registerBitWidth reg inPlace bytes =
        { result := none, lengthOut := 0 } ∧
      vectorFromByteArray_ dsMarker reg inPlace bytes =
        some { result := none, lengthOut := 0 }) ∧
    (16 ≤ bytes.length → readU16LE bytes 0 = dsMarker → readU32LE bytes 2 = 10 →
      readI16LE bytes 6 < 1 →
      htFromBlob_ dsMarker optimalHashTableSize registerBitWidth reg inPlace bytes =
        { result := none, lengthOut := 8 } ∧
      vectorFromByteArray_ dsMarker reg inPlace bytes =
        some { result := none, lengthOut := 8 }) ∧
    (16 ≤ bytes.length → readU16LE bytes 0 = dsMarker → readU32LE bytes 2 = 10 →
      1 ≤ readI16LE bytes 6 → reg.get (readI16LE bytes 6) = none →
      htFromBlob_ dsMarker optimalHashTableSize registerBitWidth reg inPlace bytes =
        { result := none, lengthOut := 8 }) ∧
    (16 ≤ bytes.length → readU16LE bytes 0 = dsMarker → readU32LE bytes 2 = 10 →
      1 ≤ readI16LE bytes 6 → reg.get (readI16LE bytes 6 + 1) = none →
      ((reg.get (readI16LE bytes 6)).isSome = true →
        htFromBlob_ dsMarker optimalHashTableSize registerBitWidth reg inPlace bytes =
          { result := none, lengthOut := 0 }) ∧
      vectorFromByteArray_ dsMarker reg inPlace bytes =
        some { result := none, lengthOut := 0 }) ∧
    (16 ≤ bytes.length → readU16LE bytes 0 = dsMarker → readU32LE bytes 2 = 10 →
      1 ≤ readI16LE bytes 6 → (reg.get (readI16LE bytes 6)).isSome = true →
      (reg.get (readI16LE bytes 6 + 1)).isSome = true →
      (htFromBlob_ dsMarker optimalHashTableSize registerBitWidth reg inPlace
          bytes).result.isSome = true ∧
      (∀ r, vectorFromByteArray_ dsMarker reg inPlace bytes = some r →
        r.result.isSome = true)) := by
  refine ⟨?_, ?_, ?_, ?_, ?_, ?_, ?_⟩
  · intro hshort
    constructor
    · unfold htFromBlob_
      rw [if_pos hshort]
    · unfold vectorFromByteArray_
      rw [if_pos hshort]
  · intro hlen hmark
    constructor
    · unfold htFromBlob_
      rw [if_neg (by omega), if_pos hmark]
    · unfold vectorFromByteArray_
      rw [if_neg (by omega), if_pos hmark]
  · intro hlen hmark hver
    constructor
    · unfold htFromBlob_
      rw [if_neg (by omega), if_neg (by simpa using hmark), if_pos hver]
    · unfold vectorFromByteArray_
      rw [if_neg (by omega), if_neg (by simpa using hmark), if_pos hver]
  · intro hlen hmark hver hkey
    constructor
    · unfold htFromBlob_
      rw [if_neg (by omega), if_neg (by simpa using hmark), if_neg (by simpa using hver),
        if_pos hkey]
    · unfold vectorFromByteArray_
      rw [if_neg (by omega), if_neg (by simpa using hmark), if_neg (by simpa using hver),
        if_pos hkey]
  · intro hlen hmark hver hkey hget
    unfold htFromBlob_
    rw [if_neg (by omega), if_neg (by simpa using hmark), if_neg (by simpa using hver),
      if_neg (by omega), hget]
  · intro hlen hmark hver hkey hnc
    constructor
    · intro hkt
      obtain ⟨kt, hkt⟩ := Option.isSome_iff_exists.mp hkt
      unfold htFromBlob_
      rw [if_neg (by omega), if_neg (by simpa using hmark), if_neg (by simpa using hver),
        if_neg (by omega), hkt]
      dsimp only
      rw [hnc]
    · unfold vectorFromByteArray_
      rw [if_neg (by omega), if_neg (by simpa using hmark), if_neg (by simpa using hver),
        if_neg (by omega)]
      dsimp only
      rw [hnc]
  · intro hlen hmark hver hkey hkt hnc
    obtain ⟨kt, hkt⟩ := Option.isSome_iff_exists.mp hkt
    obtain ⟨ktnc, hnc⟩ := Option.isSome_iff_exists.mp hnc
    constructor
    · unfold htFromBlob_
      rw [if_neg (by omega), if_neg (by simpa using hmark), if_neg (by simpa using hver),
        if_neg (by omega), hkt]
      dsimp only
      rw [hnc]
      dsimp only [htCreate_]
      exact htFromBlobLoop_isSome reg inPlace bytes bytes.length (readU64LE bytes 8)
        kt ktnc (readI16LE bytes 6) (bytes.length + 1) 16 _
    · intro r hr
      unfold vectorFromByteArray_ at hr
      rw [if_neg (by omega), if_neg (by simpa using hmark), if_neg (by simpa using hver),
        if_neg (by omega)] at hr
      dsimp only at hr
      rw [hnc] at hr
      exact vectorFromByteArrayLoop_isSome reg inPlace bytes bytes.length
        (readU64LE bytes 8) (reg.get (readI16LE bytes 6)) (readI16LE bytes 6)
        (bytes.length + 1) 16 _ r hr

/-- Witness for `fromBlob_invalid_input`: the short-buffer conjunct at input
[1,2,3] and the header-accepted conjunct at `badEntryTypeBytes` (whose first
entry has value type index 0), under `sampleRegistry`. -/
theorem fromBlob_invalid_input_witness :
    (htFromBlob_ sampleMarker 16 64 sampleRegistry false [1, 2, 3] =
        { result := none, lengthOut := 3 } ∧
      vectorFromByteArray_ sampleMarker sampleRegistry false [1, 2, 3] =
        some { result := none, lengthOut := 3 }) ∧
    (htFromBlob_ sampleMarker 16 64 sampleRegistry false badEntryTypeBytes).result.isSome = true :=
  ⟨(fromBlob_invalid_input sampleMarker 16 64 sampleRegistry false [1, 2, 3]).1 (by decide),
   (((fromBlob_invalid_input sampleMarker 16 64 sampleRegistry false
        badEntryTypeBytes).2.2.2.2.2.2) (by decide) (by decide) (by decide) (by decide)
      (by decide) (by decide)).1⟩

/-- C6: for a vector whose chain carries pairwise-distinct keys (under a key
comparator that is antisymmetric and transitive, as the descriptor contract
requires), vectorSort with order 1 and order -1 both return the vector's own
chain nodes --- permutations of the head-to-tail traversal --- and the two
orderings are exact reverses of each other.  The C function only reads the
vector (it writes the freshly malloc'd pointer array and thread-local sort
context, never a vector or node field), which the embedding reflects by
giving `vectorSort` no vector output: head, tail, array storage and chain
links are untouched by construction. -/
theorem vectorSort_reverse (v : Vector) (cmp : Int → Int → Int)
    (hanti : ∀ a b, cmp b a = -cmp a b)
    (htrans : ∀ a b c, cmp a b ≤ 0 → cmp b c ≤ 0 → cmp a c ≤ 0)
    (hdist : (chainFrom v).Pairwise (fun i j => cmp (v.slot i).key (v.slot j).key ≠ 0))
    (hsz : v.arraySize ≠ 0) :
    ∃ asc desc,
      vectorSort v cmp 1 = some asc ∧
      vectorSort v cmp (-1) = some desc ∧
      desc = asc.reverse ∧
      asc.Perm (chainFrom v) ∧ desc.Perm (chainFrom v) := by
  have hk : ∀ i j, vectorNodeCompare cmp 1 v i j = cmp (v.slot i).key (v.slot j).key := by
    intro i j
    unfold vectorNodeCompare
    ring
  have hk' : ∀ i j, vectorNodeCompare cmp (-1) v i j = -cmp (v.slot i).key (v.slot j).key := by
    intro i j
    unfold vectorNodeCompare
    ring
  haveI ht₁ : IsTrans Nat (sortRel cmp 1 v) := by
    refine ⟨fun i j l hij hjl => ?_⟩
    unfold sortRel at *
    rw [hk] at *
    exact htrans _ _ _ hij hjl
  haveI htot₁ : IsTotal Nat (sortRel cmp 1 v) := by
    refine ⟨fun i j => ?_⟩
    unfold sortRel
    rw [hk, hk]
    have := hanti (v.slot i).key (v.slot j).key
    omega
  haveI ht₂ : IsTrans Nat (sortRel cmp (-1) v) := by
    refine ⟨fun i j l hij hjl => ?_⟩
    unfold sortRel at *
    rw [hk'] at *
    have h1 : cmp (v.slot j).key (v.slot i).key ≤ 0 := by
      have := hanti (v.slot i).key (v.slot j).key
      omega
    have h2 : cmp (v.slot l).key (v.slot j).key ≤ 0 := by
      have := hanti (v.slot j).key (v.slot l).key
      omega
    have := htrans _ _ _ h2 h1
    have := hanti (v.slot l).key (v.slot i).key
    omega
  haveI htot₂ : IsTotal Nat (sortRel cmp (-1) v) := by
    refine ⟨fun i j => ?_⟩
    unfold sortRel
    rw [hk', hk']
    have := hanti (v.slot i).key (v.slot j).key
    omega
  set L := chainFrom v with hL
  set asc := List.insertionSort (sortRel cmp 1 v) L with hasc
  set desc := List.insertionSort (sortRel cmp (-1) v) L with hdesc
  have hperm₁ : asc.Perm L := List.perm_insertionSort _ _
  have hperm₂ : desc.Perm L := List.perm_insertionSort _ _
  have hsorted₁ : asc.Pairwise (sortRel cmp 1 v) := List.sorted_insertionSort _ _
  have hsorted₂ : desc.Pairwise (sortRel cmp (-1) v) := List.sorted_insertionSort _ _
  have hsymm : Symmetric (fun i j => cmp (v.slot i).key (v.slot j).key ≠ 0) := by
    intro i j hij
    have := hanti (v.slot j).key (v.slot i).key
    omega
  have hd₁ : asc.Pairwise (fun i j => cmp (v.slot i).key (v.slot j).key ≠ 0) :=
    (hperm₁.pairwise_iff (fun hxy => hsymm hxy)).mpr hdist
  have hd₂ : desc.Pairwise (fun i j => cmp (v.slot i).key (v.slot j).key ≠ 0) :=
    (hperm₂.pairwise_iff (fun hxy => hsymm hxy)).mpr hdist
  have hstrict₁ : asc.Pairwise (fun i j => cmp (v.slot i).key (v.slot j).key < 0) := by
    refine (hsorted₁.and hd₁).imp ?_
    intro i j hij
    obtain ⟨hle, hne⟩ := hij
    unfold sortRel at hle
    rw [hk] at hle
    omega
  have hstrict₂ : desc.reverse.Pairwise (fun i j => cmp (v.slot i).key (v.slot j).key < 0) := by
    rw [List.pairwise_reverse]
    refine (hsorted₂.and hd₂).imp ?_
    intro i j hij
    obtain ⟨hle, hne⟩ := hij
    unfold sortRel at hle
    rw [hk'] at hle
    have := hanti (v.slot i).key (v.slot j).key
    omega
  haveI : IsAntisymm Nat (fun i j => cmp (v.slot i).key (v.slot j).key < 0) := by
    refine ⟨fun i j hij hji => ?_⟩
    exfalso
    have := hanti (v.slot i).key (v.slot j).key
    omega
  have hpermad : asc.Perm desc.reverse :=
    (hperm₁.trans hperm₂.symm).trans desc.reverse_perm.symm
  have heq : asc = desc.reverse :=
    List.eq_of_perm_of_sorted hpermad hstrict₁ hstrict₂
  refine ⟨asc, desc, ?_, ?_, ?_, hperm₁, hperm₂⟩
  · unfold vectorSort
    rw [if_neg hsz]
  · unfold vectorSort
    rw [if_neg hsz]
  · rw [heq, List.reverse_reverse]

/-! Helper lemmas for the growth claim (C4): slot-level facts about
`setSlot`, characterizations of the allocated-slot scans, and the proof that
a well-formed vector's chain traversal lists exactly the allocated indices in
ascending order. -/

theorem setSlot_arraySize (v : Vector) (i : Nat) (f : VectorNode → VectorNode) :
    (v.setSlot i f).arraySize = v.arraySize := rfl

theorem setSlot_array_length (v : Vector) (i : Nat) (f : VectorNode → VectorNode) :
    (v.setSlot i f).array.length = v.array.length := by
  unfold Vector.setSlot
  simp

theorem slot_setSlot_same (v : Vector) (i : Nat) (f : VectorNode → VectorNode)
    (h : i < v.array.length) : (v.setSlot i f).slot i = f (v.slot i) := by
  unfold Vector.setSlot Vector.slot
  simp only [List.getD_eq_getElem?_getD, List.getElem?_set_self (by simpa using h)]
  rfl

theorem slot_setSlot_ne (v : Vector) (i j : Nat) (f : VectorNode → VectorNode)
    (h : i ≠ j) : (v.setSlot i f).slot j = v.slot j := by
  unfold Vector.setSlot Vector.slot
  simp only [List.getD_eq_getElem?_getD, List.getElem?_set_ne h]

theorem findAllocFromAux_congr (v w : Vector) (hsz : v.arraySize = w.arraySize)
    (hfl : ∀ j, j < v.arraySize → (v.slot j).allocated = (w.slot j).allocated) :
    ∀ c i, findAllocFromAux v c i = findAllocFromAux w c i := by
  intro c
  induction c with
  | zero => intro i; rfl
  | succ n ih =>
    intro i
    unfold findAllocFromAux
    rw [← hsz]
    by_cases hi : i < v.arraySize
    · rw [if_pos hi, if_pos hi, hfl i hi, ih]
    · rw [if_neg hi, if_neg hi]

theorem findAllocFrom_congr (v w : Vector) (hsz : v.arraySize = w.arraySize)
    (hfl : ∀ j, j < v.arraySize → (v.slot j).allocated = (w.slot j).allocated)
    (i : Nat) : findAllocFrom v i = findAllocFrom w i := by
  unfold findAllocFrom
  rw [← hsz, findAllocFromAux_congr v w hsz hfl]

theorem findAllocDown_congr (v w : Vector) :
    ∀ j, (∀ m, m ≤ j → (v.slot m).allocated = (w.slot m).allocated) →
      findAllocDown v j = findAllocDown w j := by
  intro j
  induction j with
  | zero =>
    intro hfl
    unfold findAllocDown
    rw [hfl 0 (by omega)]
  | succ n ih =>
    intro hfl
    unfold findAllocDown
    rw [hfl (n + 1) (by omega), ih (fun m hm => hfl m (by omega))]

/-- The single-step unfolding of `findAllocFrom` (hiding the iteration
count). -/
theorem findAllocFrom_eq (v : Vector) (i : Nat) :
    findAllocFrom v i =
      if i < v.arraySize then
        if (v.slot i).allocated then some i else findAllocFrom v (i + 1)
      else none := by
  by_cases hi : i < v.arraySize
  · rw [if_pos hi]
    show findAllocFromAux v (v.arraySize - i) i = _
    have h1 : v.arraySize - i = (v.arraySize - (i + 1)) + 1 := by omega
    rw [h1]
    show (if i < v.arraySize then
        if (v.slot i).allocated then some i
        else findAllocFromAux v (v.arraySize - (i + 1)) (i + 1)
      else none) = _
    rw [if_pos hi]
    rfl
  · rw [if_neg hi]
    show findAllocFromAux v (v.arraySize - i) i = none
    have h1 : v.arraySize - i = 0 := by omega
    rw [h1]
    rfl

/-- The single-step unfolding of `allocFrom`. -/
theorem allocFrom_eq (v : Vector) (i : Nat) :
    allocFrom v i =
      if i < v.arraySize then
        if (v.slot i).allocated then i :: allocFrom v (i + 1) else allocFrom v (i + 1)
      else [] := by
  by_cases hi : i < v.arraySize
  · rw [if_pos hi]
    show allocFromAux v (v.arraySize - i) i = _
    have h1 : v.arraySize - i = (v.arraySize - (i + 1)) + 1 := by omega
    rw [h1]
    show (if i < v.arraySize then
        if (v.slot i).allocated then i :: allocFromAux v (v.arraySize - (i + 1)) (i + 1)
        else allocFromAux v (v.arraySize - (i + 1)) (i + 1)
      else []) = _
    rw [if_pos hi]
    rfl
  · rw [if_neg hi]
    show allocFromAux v (v.arraySize - i) i = []
    have h1 : v.arraySize - i = 0 := by omega
    rw [h1]
    rfl

theorem allocFrom_of_le (v : Vector) (i : Nat) (h : v.arraySize ≤ i) :
    allocFrom v i = [] := by
  rw [allocFrom_eq, if_neg (by omega)]

theorem findAllocFrom_of_le (v : Vector) (i : Nat) (h : v.arraySize ≤ i) :
    findAllocFrom v i = none := by
  rw [findAllocFrom_eq, if_neg (by omega)]

theorem findAllocFrom_none (v : Vector) :
    ∀ (k i : Nat), v.arraySize - i ≤ k →
      (findAllocFrom v i = none ↔
        ∀ m, i ≤ m → m < v.arraySize → (v.slot m).allocated = false) := by
  intro k
  induction k with
  | zero =>
    intro i hk
    rw [findAllocFrom_of_le v i (by omega)]
    simp only [true_iff]
    intro m hm hm2
    omega
  | succ n ih =>
    intro i hk
    rw [findAllocFrom_eq]
    by_cases hi : i < v.arraySize
    · rw [if_pos hi]
      by_cases ha : (v.slot i).allocated
      · rw [if_pos ha]
        constructor
        · intro h; exact Option.noConfusion h
        · intro h
          have := h i (by omega) hi
          rw [ha] at this
          exact Bool.noConfusion this
      · rw [if_neg ha]
        rw [ih (i + 1) (by omega)]
        constructor
        · intro h m hm hm2
          rcases Nat.eq_or_lt_of_le hm with heq | hlt
          · rw [← heq]; simpa using ha
          · exact h m hlt hm2
        · intro h m hm hm2
          exact h m (by omega) hm2
    · rw [if_neg hi]
      simp only [true_iff]
      intro m hm hm2
      omega

theorem findAllocFrom_some (v : Vector) :
    ∀ (k i j : Nat), v.arraySize - i ≤ k → findAllocFrom v i = some j →
      i ≤ j ∧ j < v.arraySize ∧ (v.slot j).allocated = true ∧
      ∀ m, i ≤ m → m < j → (v.slot m).allocated = false := by
  intro k
  induction k with
  | zero =>
    intro i j hk h
    rw [findAllocFrom_of_le v i (by omega)] at h
    exact Option.noConfusion h
  | succ n ih =>
    intro i j hk h
    rw [findAllocFrom_eq] at h
    by_cases hi : i < v.arraySize
    · rw [if_pos hi] at h
      by_cases ha : (v.slot i).allocated
      · rw [if_pos ha] at h
        cases h
        exact ⟨Nat.le_refl _, hi, ha, fun m hm hm2 => by omega⟩
      · rw [if_neg ha] at h
        obtain ⟨h1, h2, h3, h4⟩ := ih (i + 1) j (by omega) h
        refine ⟨by omega, h2, h3, ?_⟩
        intro m hm hm2
        rcases Nat.eq_or_lt_of_le hm with heq | hlt
        · rw [← heq]; simpa using ha
        · exact h4 m hlt hm2
    · rw [if_neg hi] at h
      exact Option.noConfusion h

theorem findAllocFrom_pinpoint (v : Vector) :
    ∀ (k i j : Nat), v.arraySize - i ≤ k → i ≤ j → j < v.arraySize →
      (v.slot j).allocated = true →
      (∀ m, i ≤ m → m < j → (v.slot m).allocated = false) →
      findAllocFrom v i = some j := by
  intro k
  induction k with
  | zero =>
    intro i j hk hij hj ha hmid
    omega
  | succ n ih =>
    intro i j hk hij hj ha hmid
    rw [findAllocFrom_eq, if_pos (by omega)]
    rcases Nat.eq_or_lt_of_le hij with heq | hlt
    · rw [heq, ha]
      simp
    · have hia : (v.slot i).allocated = false := hmid i (Nat.le_refl _) hlt
      rw [hia]
      simp only [Bool.false_eq_true, if_false]
      exact ih (i + 1) j (by omega) (by omega) hj ha (fun m hm hm2 => hmid m (by omega) hm2)

theorem allocFrom_cons_of (v : Vector) :
    ∀ (k i j : Nat), v.arraySize - i ≤ k → i ≤ j → j < v.arraySize →
      (v.slot j).allocated = true →
      (∀ m, i ≤ m → m < j → (v.slot m).allocated = false) →
      allocFrom v i = j :: allocFrom v (j + 1) := by
  intro k
  induction k with
  | zero =>
    intro i j hk hij hj ha hmid
    omega
  | succ n ih =>
    intro i j hk hij hj ha hmid
    rw [allocFrom_eq, if_pos (by omega)]
    rcases Nat.eq_or_lt_of_le hij with heq | hlt
    · rw [heq, ha]
      simp
    · have hia : (v.slot i).allocated = false := hmid i (Nat.le_refl _) hlt
      rw [hia]
      simp only [Bool.false_eq_true, if_false]
      exact ih (i + 1) j (by omega) (by omega) hj ha (fun m hm hm2 => hmid m (by omega) hm2)

theorem allocFrom_nil_of (v : Vector) :
    ∀ (k i : Nat), v.arraySize - i ≤ k →
      (∀ m, i ≤ m → m < v.arraySize → (v.slot m).allocated = false) →
      allocFrom v i = [] := by
  intro k
  induction k with
  | zero =>
    intro i hk hmid
    exact allocFrom_of_le v i (by omega)
  | succ n ih =>
    intro i hk hmid
    rw [allocFrom_eq]
    by_cases hi : i < v.arraySize
    · rw [if_pos hi, hmid i (Nat.le_refl _) hi]
      simp only [Bool.false_eq_true, if_false]
      exact ih (i + 1) (by omega) (fun m hm hm2 => hmid m (by omega) hm2)
    · rw [if_neg hi]

theorem findAllocDown_some (v : Vector) :
    ∀ (j p : Nat), findAllocDown v j = some p →
      p ≤ j ∧ (v.slot p).allocated = true ∧
      ∀ m, p < m → m ≤ j → (v.slot m).allocated = false := by
  intro j
  induction j with
  | zero =>
    intro p h
    unfold findAllocDown at h
    by_cases ha : (v.slot 0).allocated
    · rw [if_pos ha] at h
      cases h
      exact ⟨Nat.le_refl _, ha, fun m hm hm2 => by omega⟩
    · rw [if_neg ha] at h
      exact Option.noConfusion h
  | succ n ih =>
    intro p h
    unfold findAllocDown at h
    by_cases ha : (v.slot (n + 1)).allocated
    · rw [if_pos ha] at h
      cases h
      exact ⟨Nat.le_refl _, ha, fun m hm hm2 => by omega⟩
    · rw [if_neg ha] at h
      obtain ⟨h1, h2, h3⟩ := ih p h
      refine ⟨by omega, h2, ?_⟩
      intro m hm hm2
      rcases Nat.eq_or_lt_of_le hm2 with heq | hlt
      · rw [heq]; simpa using ha
      · exact h3 m hm (by omega)

theorem findAllocDown_none (v : Vector) :
    ∀ (j : Nat), findAllocDown v j = none →
      ∀ m, m ≤ j → (v.slot m).allocated = false := by
  intro j
  induction j with
  | zero =>
    intro h m hm
    unfold findAllocDown at h
    by_cases ha : (v.slot 0).allocated
    · rw [if_pos ha] at h; exact Option.noConfusion h
    · interval_cases m
      simpa using ha
  | succ n ih =>
    intro h m hm
    unfold findAllocDown at h
    by_cases ha : (v.slot (n + 1)).allocated
    · rw [if_pos ha] at h; exact Option.noConfusion h
    · rw [if_neg ha] at h
      rcases Nat.eq_or_lt_of_le hm with heq | hlt
      · rw [heq]; simpa using ha
      · exact ih h m (by omega)

/-- A well-formed vector's head-to-tail traversal lists exactly the allocated
indices in ascending order. -/
theorem chainAux_spec (v : Vector) (hWF : v.WF) :
    ∀ (fuel i : Nat), v.arraySize - i < fuel →
      chainAux v fuel (findAllocFrom v i) = allocFrom v i := by
  intro fuel
  induction fuel with
  | zero => intro i h; omega
  | succ n ih =>
    intro i hfuel
    cases hf : findAllocFrom v i with
    | none =>
      have hall := (findAllocFrom_none v (v.arraySize - i) i (Nat.le_refl _)).mp hf
      rw [allocFrom_nil_of v (v.arraySize - i) i (Nat.le_refl _) hall]
      rfl
    | some j =>
      obtain ⟨hij, hj, ha, hmid⟩ := findAllocFrom_some v (v.arraySize - i) i j (Nat.le_refl _) hf
      rw [allocFrom_cons_of v (v.arraySize - i) i j (Nat.le_refl _) hij hj ha hmid]
      show j :: chainAux v n (v.slot j).next = j :: allocFrom v (j + 1)
      congr 1
      have hnext : (v.slot j).next = findAllocFrom v (j + 1) :=
        (hWF.2.2 j hj ha).1
      rw [hnext]
      exact ih (j + 1) (by omega)

/-- `chainFrom` of a well-formed vector is its ascending allocated-index
list. -/
theorem chainFrom_eq_allocIndices (v : Vector) (hWF : v.WF) :
    chainFrom v = allocIndices v := by
  unfold chainFrom allocIndices
  rw [hWF.2.1]
  exact chainAux_spec v hWF (v.arraySize + 1) 0 (by omega)

theorem array_getElem?_slot (v : Vector) (i : Nat) (h : i < v.array.length) :
    v.array[i]? = some (v.slot i) := by
  unfold Vector.slot
  rw [List.getD_eq_getElem?_getD, List.getElem?_eq_getElem h]
  rfl

theorem setSlot_identity (v : Vector) (i : Nat) (f : VectorNode → VectorNode)
    (hf : f (v.slot i) = v.slot i) : v.setSlot i f = v := by
  unfold Vector.setSlot
  rw [hf]
  by_cases h : i < v.array.length
  · rw [list_set_getElem_self _ _ _ (array_getElem?_slot v i h)]
  · rw [List.set_eq_of_length_le (by omega)]

theorem getD_replicate_blank (n m : Nat) :
    (List.replicate n blankNode).getD m blankNode = blankNode := by
  rw [List.getD_eq_getElem?_getD, List.getElem?_replicate]
  by_cases h : m < n <;> simp [h]

theorem vectorFindNextAllocated_congr (v w : Vector) (hsz : v.arraySize = w.arraySize)
    (hfl : ∀ j, j < v.arraySize → (v.slot j).allocated = (w.slot j).allocated) (i : Nat) :
    vectorFindNextAllocated v i = vectorFindNextAllocated w i :=
  findAllocFrom_congr v w hsz hfl (i + 1)

theorem vectorFindPreviousAllocated_congr (v w : Vector) (i : Nat)
    (hv : i < v.arraySize) (hw : i < w.arraySize)
    (hfl : ∀ j, j < i → (v.slot j).allocated = (w.slot j).allocated) :
    vectorFindPreviousAllocated v i = vectorFindPreviousAllocated w i := by
  unfold vectorFindPreviousAllocated
  rw [if_pos hv, if_pos hw]
  cases i with
  | zero => rfl
  | succ m => exact findAllocDown_congr v w m (fun j hj => hfl j (by omega))

theorem vectorFindPreviousAllocated_some (v : Vector) (i p : Nat)
    (h : vectorFindPreviousAllocated v i = some p) :
    p < i ∧ (v.slot p).allocated = true ∧
    ∀ m, p < m → m < i → (v.slot m).allocated = false := by
  unfold vectorFindPreviousAllocated at h
  by_cases hi : i < v.arraySize
  · rw [if_pos hi] at h
    cases i with
    | zero => exact Option.noConfusion h
    | succ m =>
      obtain ⟨h1, h2, h3⟩ := findAllocDown_some v m p h
      exact ⟨by omega, h2, fun j hj1 hj2 => h3 j hj1 (by omega)⟩
  · rw [if_neg hi] at h
    exact Option.noConfusion h

theorem vectorFindPreviousAllocated_none (v : Vector) (i : Nat)
    (hi : i < v.arraySize) (h : vectorFindPreviousAllocated v i = none) :
    ∀ m, m < i → (v.slot m).allocated = false := by
  unfold vectorFindPreviousAllocated at h
  rw [if_pos hi] at h
  cases i with
  | zero => intro m hm; omega
  | succ k =>
    intro m hm
    exact findAllocDown_none v k h m (by omega)

theorem growExtend_spec (v : Vector) (index : Nat)
    (hlen0 : v.array.length = v.arraySize) (hge : v.arraySize ≤ index) :
    (growExtend v index).arraySize = v.arraySize ∧
    (growExtend v index).array.length = index + 1 ∧
    (∀ i, i < v.arraySize → (growExtend v index).slot i = v.slot i) ∧
    (∀ i, v.arraySize ≤ i → (growExtend v index).slot i = blankNode) ∧
    (growExtend v index).size = v.size := by
  refine ⟨rfl, ?_, ?_, ?_, rfl⟩
  · show (v.array ++ List.replicate (index + 1 - v.arraySize) blankNode).length = index + 1
    simp [hlen0]
    omega
  · intro i hi
    show (v.array ++ List.replicate (index + 1 - v.arraySize) blankNode).getD i blankNode
      = v.array.getD i blankNode
    exact List.getD_append _ _ _ _ (by omega)
  · intro i hi
    show (v.array ++ List.replicate (index + 1 - v.arraySize) blankNode).getD i blankNode
      = blankNode
    rw [List.getD_append_right _ _ _ _ (by omega)]
    exact getD_replicate_blank _ _

theorem growFixHead_slot (g : Vector) (i : Nat) : (growFixHead g).slot i = g.slot i := rfl

theorem growFixHead_arraySize (g : Vector) : (growFixHead g).arraySize = g.arraySize := rfl

theorem growFixTail_slot (g : Vector) (i : Nat) : (growFixTail g).slot i = g.slot i := by
  unfold growFixTail
  by_cases h : g.arraySize > 0
  · rw [if_pos h]
    rfl
  · rw [if_neg h]

theorem growFixTail_arraySize (g : Vector) : (growFixTail g).arraySize = g.arraySize := by
  unfold growFixTail
  by_cases h : g.arraySize > 0
  · rw [if_pos h]
  · rw [if_neg h]

theorem growFixTail_array (g : Vector) : (growFixTail g).array = g.array := by
  unfold growFixTail
  by_cases h : g.arraySize > 0
  · rw [if_pos h]
  · rw [if_neg h]

theorem growFixTail_size (g : Vector) : (growFixTail g).size = g.size := by
  unfold growFixTail
  by_cases h : g.arraySize > 0
  · rw [if_pos h]
  · rw [if_neg h]

/-- Recomputing every allocated slot's links is the identity when the links
are already canonical. -/
theorem vectorRelinkAll_fixed (g : Vector)
    (hcanon : ∀ i, i < g.arraySize → (g.slot i).allocated = true →
      (g.slot i).next = vectorFindNextAllocated g i ∧
      (g.slot i).prev = vectorFindPreviousAllocated g i)
    (hblank : ∀ i, g.arraySize ≤ i → (g.slot i).allocated = false) :
    vectorRelinkAll g = g := by
  unfold vectorRelinkAll
  apply List.foldl_fixed'
  intro i
  by_cases ha : (g.slot i).allocated
  · rw [if_pos ha]
    by_cases hi : i < g.arraySize
    · apply setSlot_identity
      obtain ⟨h1, h2⟩ := hcanon i hi ha
      rw [← h1, ← h2]
    · exfalso
      rw [hblank i (by omega)] at ha
      exact Bool.noConfusion ha
  · rw [if_neg ha]

/-- The grow phase leaves every old slot untouched (link recomputation under
well-formed links is the identity), appends unallocated slots up to index
`index`, and updates `arraySize` to `index + 1`. -/
theorem kvVectorGrow_spec (v : Vector) (index : Nat) (moved : Bool)
    (hWF : v.WF) (hge : v.arraySize ≤ index) :
    (kvVectorGrow v index moved).arraySize = index + 1 ∧
    (kvVectorGrow v index moved).array.length = index + 1 ∧
    (∀ i, i < v.arraySize → (kvVectorGrow v index moved).slot i = v.slot i) ∧
    (∀ i, v.arraySize ≤ i → (kvVectorGrow v index moved).slot i = blankNode) ∧
    (kvVectorGrow v index moved).size = v.size := by
  obtain ⟨he1, he2, he3, he4, he5⟩ := growExtend_spec v index hWF.1 hge
  set g0 := growExtend v index with hg0
  set g2 := growFixTail (growFixHead g0) with hg2
  have hg2sz : g2.arraySize = v.arraySize := by
    rw [hg2, growFixTail_arraySize, growFixHead_arraySize, he1]
  have hg2slot : ∀ i, g2.slot i = g0.slot i := by
    intro i
    rw [hg2, growFixTail_slot, growFixHead_slot]
  have hg2arr : g2.array = g0.array := by
    rw [hg2, growFixTail_array]
    rfl
  have hg2size : g2.size = v.size := by
    rw [hg2, growFixTail_size]
    exact he5
  have hg2fl : ∀ j, j < g2.arraySize → (g2.slot j).allocated = (v.slot j).allocated := by
    intro j hj
    rw [hg2slot j, he3 j (by omega)]
  have hfold : vectorRelinkAll g2 = g2 := by
    apply vectorRelinkAll_fixed
    · intro i hi ha
      have hiv : i < v.arraySize := by omega
      have hva : (v.slot i).allocated = true := by
        rw [← hg2fl i hi]
        exact ha
      constructor
      · rw [hg2slot i, he3 i hiv,
          vectorFindNextAllocated_congr g2 v hg2sz (fun j hj => hg2fl j hj) i]
        exact (hWF.2.2 i hiv hva).1
      · rw [hg2slot i, he3 i hiv,
          vectorFindPreviousAllocated_congr g2 v i (by omega) (by omega)
            (fun j hj => hg2fl j (by omega))]
        exact (hWF.2.2 i hiv hva).2
    · intro i hi
      rw [hg2slot i, he4 i (by omega)]
      rfl
  have heq : kvVectorGrow v index moved
      = { (if moved then vectorRelinkAll g2 else g0) with arraySize := index + 1 } := rfl
  rw [heq]
  by_cases hm : moved
  · rw [if_pos hm, hfold]
    refine ⟨rfl, ?_, ?_, ?_, ?_⟩
    · show g2.array.length = index + 1
      rw [hg2arr]
      exact he2
    · intro i hi
      show g2.slot i = v.slot i
      rw [hg2slot i, he3 i hi]
    · intro i hi
      show g2.slot i = blankNode
      rw [hg2slot i, he4 i hi]
    · show g2.size = v.size
      exact hg2size
  · rw [if_neg hm]
    exact ⟨rfl, he2, fun i hi => he3 i hi, fun i hi => he4 i hi, he5⟩

theorem installData_arraySize (v : Vector) (index : Nat) (key value ty : Int) (pv : Option Nat) :
    (installData v index key value ty pv).arraySize = v.arraySize := by
  unfold installData
  cases pv <;> rfl

theorem installData_length (v : Vector) (index : Nat) (key value ty : Int) (pv : Option Nat) :
    (installData v index key value ty pv).array.length = v.array.length := by
  unfold installData
  cases pv <;> simp [setSlot_array_length]

theorem installData_size (v : Vector) (index : Nat) (key value ty : Int) (pv : Option Nat) :
    (installData v index key value ty pv).size = v.size := by
  unfold installData
  cases pv <;> rfl

theorem installData_slot_index (v : Vector) (index : Nat) (key value ty : Int) (pv : Option Nat)
    (hidx : index < v.array.length) (hp : ∀ p, pv = some p → p ≠ index) :
    (installData v index key value ty pv).slot index =
      { v.slot index with value := value, typeIdx := ty, key := key, prev := pv } := by
  unfold installData
  cases pv with
  | none => exact slot_setSlot_same v index _ hidx
  | some p =>
    rw [slot_setSlot_ne _ p index _ (hp p rfl)]
    exact slot_setSlot_same v index _ hidx

theorem installData_slot_prev (v : Vector) (index : Nat) (key value ty : Int) (p : Nat)
    (hpi : p ≠ index) (hplen : p < v.array.length) :
    (installData v index key value ty (some p)).slot p = { v.slot p with next := some index } := by
  unfold installData
  rw [slot_setSlot_same _ p _ (by simpa [setSlot_array_length] using hplen),
    slot_setSlot_ne _ index p _ (fun h => hpi h.symm)]

theorem installData_slot_other (v : Vector) (index : Nat) (key value ty : Int) (pv : Option Nat)
    (i : Nat) (hi : i ≠ index) (hip : pv ≠ some i) :
    (installData v index key value ty pv).slot i = v.slot i := by
  unfold installData
  cases pv with
  | none => exact slot_setSlot_ne _ index i _ (fun h => hi h.symm)
  | some p =>
    rw [slot_setSlot_ne _ p i _ (fun h => hip (by rw [h])),
      slot_setSlot_ne _ index i _ (fun h => hi h.symm)]

theorem installNext_none (v : Vector) (index : Nat) :
    installNext v index none = v.setSlot index (fun n => { n with next := none }) := rfl

theorem installFinish_slot (v : Vector) (i : Nat) : (installFinish v).slot i = v.slot i := rfl

theorem installFinish_arraySize (v : Vector) : (installFinish v).arraySize = v.arraySize := rfl

theorem installFinish_length (v : Vector) : (installFinish v).array.length = v.array.length := rfl

theorem installFinish_size (v : Vector) : (installFinish v).size = v.size + 1 := rfl

theorem installFinish_head (v : Vector) :
    (installFinish v).head =
      if (v.slot 0).allocated then some 0 else findAllocFrom v 1 := by
  show (if (({ v with size := v.size + 1 } : Vector).slot 0).allocated then some 0
    else vectorFindNextAllocated { v with size := v.size + 1 } 0) = _
  have hs : ({ v with size := v.size + 1 } : Vector).slot 0 = v.slot 0 := rfl
  have hf : vectorFindNextAllocated { v with size := v.size + 1 } 0 = findAllocFrom v 1 := by
    unfold vectorFindNextAllocated
    exact findAllocFrom_congr { v with size := v.size + 1 } v rfl (fun j hj => rfl) 1
  rw [hs, hf]

/-- The installation phase at a fresh top slot (`index = arraySize - 1`, slot
still blank): the new node gets the written data, a backward link to the last
allocated slot and no forward link; that neighbour's forward link is patched;
every other slot is untouched; size is bumped and the head recomputed
canonically. -/
theorem kvVectorInstall_spec (v : Vector) (index : Nat) (key value ty : Int)
    (hlen : v.array.length = index + 1) (hsz : v.arraySize = index + 1)
    (hblank : v.slot index = blankNode) :
    (kvVectorInstall v index key value ty).arraySize = index + 1 ∧
    (kvVectorInstall v index key value ty).array.length = index + 1 ∧
    (kvVectorInstall v index key value ty).size = v.size + 1 ∧
    (kvVectorInstall v index key value ty).slot index =
      { allocated := true, key := key, value := value, typeIdx := ty,
        prev := vectorFindPreviousAllocated v index, next := none } ∧
    (∀ i, i ≠ index → vectorFindPreviousAllocated v index ≠ some i →
      (kvVectorInstall v index key value ty).slot i = v.slot i) ∧
    (∀ p, vectorFindPreviousAllocated v index = some p →
      (kvVectorInstall v index key value ty).slot p = { v.slot p with next := some index }) ∧
    (kvVectorInstall v index key value ty).head
      = findAllocFrom (kvVectorInstall v index key value ty) 0 := by
  have hpwf : ∀ p, vectorFindPreviousAllocated v index = some p → p < index := by
    intro p hp
    exact (vectorFindPreviousAllocated_some v index p hp).1
  unfold kvVectorInstall
  dsimp only
  set pv := vectorFindPreviousAllocated v index with hpv
  set v1 := installData v index key value ty pv with hv1
  have hv1sz : v1.arraySize = index + 1 := by
    rw [hv1, installData_arraySize, hsz]
  have hv1len : v1.array.length = index + 1 := by
    rw [hv1, installData_length, hlen]
  have hv1size : v1.size = v.size := by
    rw [hv1, installData_size]
  have hnx : vectorFindNextAllocated v1 index = none := by
    unfold vectorFindNextAllocated
    apply findAllocFrom_of_le
    omega
  rw [hnx, installNext_none]
  set v2 := v1.setSlot index (fun n => { n with next := none }) with hv2
  have hv1idx : v1.slot index
      = { v.slot index with value := value, typeIdx := ty, key := key, prev := pv } := by
    rw [hv1]
    exact installData_slot_index v index key value ty pv (by omega)
      (fun p hp => by have := hpwf p hp; omega)
  have hv2idx : v2.slot index
      = { v.slot index with
          value := value, typeIdx := ty, key := key, prev := pv, next := none } := by
    rw [hv2, slot_setSlot_same _ index _ (by omega), hv1idx]
  have hold : (v2.slot index).allocated = false := by
    rw [hv2idx, hblank]
    rfl
  rw [hold]
  simp only [Bool.false_eq_true, if_false]
  have hv2len : v2.array.length = index + 1 := by
    rw [hv2, setSlot_array_length, hv1len]
  set v3 := v2.setSlot index (fun n => { n with allocated := true }) with hv3
  have hv3sz : v3.arraySize = index + 1 := by rw [hv3, setSlot_arraySize, hv2, setSlot_arraySize, hv1sz]
  have hv3len : v3.array.length = index + 1 := by
    rw [hv3, setSlot_array_length, hv2, setSlot_array_length, hv1len]
  have hv3size : v3.size = v.size := by
    rw [hv3]
    show v2.size = v.size
    rw [hv2]
    show v1.size = v.size
    exact hv1size
  have hv3idx : v3.slot index
      = { allocated := true, key := key, value := value, typeIdx := ty,
          prev := pv, next := none } := by
    rw [hv3, slot_setSlot_same _ index _ (by omega), hv2idx, hblank]
  have hv3other : ∀ i, i ≠ index → pv ≠ some i → v3.slot i = v.slot i := by
    intro i hi hip
    rw [hv3, slot_setSlot_ne _ index i _ (fun h => hi h.symm),
      hv2, slot_setSlot_ne _ index i _ (fun h => hi h.symm), hv1]
    exact installData_slot_other v index key value ty pv i hi hip
  have hv3prev : ∀ p, pv = some p → v3.slot p = { v.slot p with next := some index } := by
    intro p hp
    have hplt : p < index := hpwf p hp
    have hpi : p ≠ index := by omega
    rw [hv3, slot_setSlot_ne _ index p _ (fun h => hpi h.symm),
      hv2, slot_setSlot_ne _ index p _ (fun h => hpi h.symm), hv1, hp]
    exact installData_slot_prev v index key value ty p hpi (by omega)
  refine ⟨?_, ?_, ?_, ?_, ?_, ?_, ?_⟩
  · rw [installFinish_arraySize, hv3sz]
  · rw [installFinish_length, hv3len]
  · rw [installFinish_size, hv3size]
  · rw [installFinish_slot, hv3idx]
  · intro i hi hip
    rw [installFinish_slot]
    exact hv3other i hi hip
  · intro p hp
    rw [installFinish_slot]
    exact hv3prev p hp
  · rw [installFinish_head]
    have hfl : ∀ j, j < (installFinish v3).arraySize →
        ((installFinish v3).slot j).allocated = (v3.slot j).allocated := by
      intro j hj
      rw [installFinish_slot]
    rw [findAllocFrom_congr (installFinish v3) v3 (installFinish_arraySize v3) hfl 0]
    have h0sz : 0 < v3.arraySize := by omega
    rw [findAllocFrom_eq v3 0, if_pos h0sz]

/-- Appending a freshly allocated slot at `index` (with only unallocated
slots between the old `arraySize` and `index`) appends `index` to the
ascending allocated-index list. -/
theorem allocFrom_extend (v w : Vector) (index : Nat)
    (hvw : v.arraySize ≤ index) (hw : w.arraySize = index + 1)
    (hsame : ∀ m, m < v.arraySize → (w.slot m).allocated = (v.slot m).allocated)
    (hmid : ∀ m, v.arraySize ≤ m → m < index → (w.slot m).allocated = false)
    (hidx : (w.slot index).allocated = true) :
    ∀ (k i : Nat), index + 1 - i ≤ k → i ≤ index →
      allocFrom w i = allocFrom v i ++ [index] := by
  intro k
  induction k with
  | zero => intro i hk hi; omega
  | succ n ih =>
    intro i hk hi
    by_cases hvlt : i < v.arraySize
    · have hwlt : i < w.arraySize := by omega
      have hilt : i < index := by omega
      rw [allocFrom_eq w i, if_pos hwlt, hsame i hvlt, allocFrom_eq v i, if_pos hvlt]
      by_cases ha : (v.slot i).allocated
      · rw [if_pos ha, if_pos ha, ih (i + 1) (by omega) (by omega)]
        rfl
      · rw [if_neg ha, if_neg ha, ih (i + 1) (by omega) (by omega)]
    · have hge2 : v.arraySize ≤ i := by omega
      rw [allocFrom_of_le v i hge2]
      rcases Nat.eq_or_lt_of_le hi with heq | hlt
      · subst heq
        rw [allocFrom_eq w i, if_pos (by omega), if_pos hidx,
          allocFrom_of_le w (i + 1) (by omega)]
        rfl
      · rw [allocFrom_eq w i, if_pos (by omega),
          if_neg (by rw [hmid i hge2 hlt]; simp),
          ih (i + 1) (by omega) (by omega), allocFrom_of_le v (i + 1) (by omega)]

/-- C4: setting an entry at or beyond the current arraySize grows the
backing array so the slot exists (arraySize becomes index + 1), changes no
existing slot's allocated state, preserves every previously allocated slot's
key and value, and appends the new node at the end of the head-to-tail
chain --- so every previously allocated slot keeps its relative chain
position.  This holds whether or not realloc relocated the array
(`moved`). -/
theorem kvVectorSetEntry_grow_preserves (v : Vector) (index : Nat) (key value ty : Int)
    (moved : Bool) (hWF : v.WF) (hge : v.arraySize ≤ index) :
    (kvVectorSetEntry_ v index key value (some ty) moved).arraySize = index + 1 ∧
    (∀ i, i < v.arraySize →
      ((kvVectorSetEntry_ v index key value (some ty) moved).slot i).allocated
          = (v.slot i).allocated ∧
      ((kvVectorSetEntry_ v index key value (some ty) moved).slot i).key = (v.slot i).key ∧
      ((kvVectorSetEntry_ v index key value (some ty) moved).slot i).value
          = (v.slot i).value) ∧
    ((kvVectorSetEntry_ v index key value (some ty) moved).slot index).allocated = true ∧
    ((kvVectorSetEntry_ v index key value (some ty) moved).slot index).key = key ∧
    ((kvVectorSetEntry_ v index key value (some ty) moved).slot index).value = value ∧
    chainFrom (kvVectorSetEntry_ v index key value (some ty) moved)
      = chainFrom v ++ [index] := by
  have hkv : kvVectorSetEntry_ v index key value (some ty) moved
      = kvVectorInstall (kvVectorGrow v index moved) index key value ty := by
    unfold kvVectorSetEntry_
    dsimp only
    rw [if_pos hge]
  obtain ⟨hg1, hg2, hg3, hg4, hg5⟩ := kvVectorGrow_spec v index moved hWF hge
  set g := kvVectorGrow v index moved with hgdef
  obtain ⟨hi1, hi2, hi3, hi4, hi5, hi6, hi7⟩ :=
    kvVectorInstall_spec g index key value ty hg2 hg1 (hg4 index hge)
  rw [hkv]
  set W := kvVectorInstall g index key value ty with hWdef
  set pv := vectorFindPreviousAllocated g index with hpvdef
  have hpvas : ∀ p, pv = some p → p < v.arraySize ∧ p < index ∧ (v.slot p).allocated = true ∧
      ∀ m, p < m → m < index → m < v.arraySize → (v.slot m).allocated = false := by
    intro p hp
    obtain ⟨hplt, hpa, hpmid⟩ := vectorFindPreviousAllocated_some g index p (hpvdef ▸ hp)
    have hpas : p < v.arraySize := by
      by_contra hcon
      rw [hg4 p (by omega)] at hpa
      exact Bool.noConfusion hpa
    refine ⟨hpas, hplt, by rw [← hg3 p hpas]; exact hpa, ?_⟩
    intro m hm1 hm2 hm3
    rw [← hg3 m hm3]
    exact hpmid m hm1 hm2
  have hWsame : ∀ m, m < v.arraySize →
      (W.slot m).allocated = (v.slot m).allocated ∧
      (W.slot m).key = (v.slot m).key ∧
      (W.slot m).value = (v.slot m).value := by
    intro m hm
    by_cases hmp : pv = some m
    · rw [hi6 m hmp, hg3 m hm]
      exact ⟨rfl, rfl, rfl⟩
    · have hmi : m ≠ index := by omega
      rw [hi5 m hmi hmp, hg3 m hm]
      exact ⟨rfl, rfl, rfl⟩
  have hWmid : ∀ m, v.arraySize ≤ m → m < index → (W.slot m).allocated = false := by
    intro m hm hmlt
    have hmp : pv ≠ some m := by
      intro hp
      have := (hpvas m hp).1
      omega
    rw [hi5 m (by omega) hmp, hg4 m hm]
    rfl
  have hWidxa : (W.slot index).allocated = true := by rw [hi4]
  have hWWF : W.WF := by
    refine ⟨by rw [hi2, hi1], hi7, ?_⟩
    intro i hilt hial
    rw [hi1] at hilt
    by_cases hii : i = index
    · subst hii
      constructor
      · rw [hi4]
        show (none : Option Nat) = vectorFindNextAllocated W i
        unfold vectorFindNextAllocated
        rw [findAllocFrom_of_le W (i + 1) (by omega)]
      · rw [hi4]
        show pv = vectorFindPreviousAllocated W i
        rw [hpvdef]
        apply vectorFindPreviousAllocated_congr g W i (by omega) (by omega)
        intro j hj
        by_cases hjas : j < v.arraySize
        · rw [hg3 j hjas]
          exact ((hWsame j hjas).1).symm
        · rw [hg4 j (by omega), hWmid j (by omega) hj]
          rfl
    · have hiidx : i < index := by omega
      have hias : i < v.arraySize := by
        by_contra hcon
        rw [hWmid i (by omega) hiidx] at hial
        exact Bool.noConfusion hial
      have hvia : (v.slot i).allocated = true := by
        rw [← (hWsame i hias).1]
        exact hial
      by_cases hip : pv = some i
      · obtain ⟨hpas, hplt, hpa, hpmid⟩ := hpvas i hip
        constructor
        · rw [hi6 i hip]
          show some index = vectorFindNextAllocated W i
          unfold vectorFindNextAllocated
          symm
          apply findAllocFrom_pinpoint W (W.arraySize) (i + 1) index (by omega) (by omega)
            (by omega) hWidxa
          intro m hm1 hm2
          by_cases hmas : m < v.arraySize
          · rw [(hWsame m hmas).1]
            exact hpmid m (by omega) hm2 hmas
          · exact hWmid m (by omega) hm2
        · rw [hi6 i hip]
          show (g.slot i).prev = vectorFindPreviousAllocated W i
          rw [hg3 i hias, (hWF.2.2 i hias hvia).2]
          apply vectorFindPreviousAllocated_congr v W i hias (by omega)
          intro j hj
          exact ((hWsame j (by omega)).1).symm
      · obtain ⟨p, hp⟩ : ∃ p, pv = some p := by
          cases hpvcase : pv with
          | none =>
            exfalso
            have hall := vectorFindPreviousAllocated_none g index (by omega)
              (hpvdef ▸ hpvcase)
            have := hall i hiidx
            rw [hg3 i hias, hvia] at this
            exact Bool.noConfusion this
          | some p => exact ⟨p, rfl⟩
        obtain ⟨hpas, hplt, hpa, hpmid⟩ := hpvas p hp
        have hilp : i < p := by
          rcases Nat.lt_trichotomy i p with h | h | h
          · exact h
          · exfalso; rw [h] at hip; exact hip hp
          · exfalso
            have := hpmid i h hiidx hias
            rw [hvia] at this
            exact Bool.noConfusion this
        have hfv : ∃ j, findAllocFrom v (i + 1) = some j := by
          cases hfv0 : findAllocFrom v (i + 1) with
          | none =>
            exfalso
            have hall := (findAllocFrom_none v (v.arraySize - (i + 1)) (i + 1)
              (Nat.le_refl _)).mp hfv0
            have := hall p (by omega) hpas
            rw [hpa] at this
            exact Bool.noConfusion this
          | some j => exact ⟨j, rfl⟩
        obtain ⟨j, hj⟩ := hfv
        obtain ⟨hj1, hj2, hj3, hj4⟩ :=
          findAllocFrom_some v (v.arraySize - (i + 1)) (i + 1) j (Nat.le_refl _) hj
        constructor
        · rw [hi5 i hii hip, hg3 i hias, (hWF.2.2 i hias hvia).1]
          show vectorFindNextAllocated v i = vectorFindNextAllocated W i
          unfold vectorFindNextAllocated
          rw [hj]
          symm
          apply findAllocFrom_pinpoint W (W.arraySize) (i + 1) j (by omega) hj1 (by omega)
            (by rw [(hWsame j hj2).1]; exact hj3)
          intro m hm1 hm2
          rw [(hWsame m (by omega)).1]
          exact hj4 m hm1 hm2
        · rw [hi5 i hii hip, hg3 i hias, (hWF.2.2 i hias hvia).2]
          apply vectorFindPreviousAllocated_congr v W i hias (by omega)
          intro jj hjj
          exact ((hWsame jj (by omega)).1).symm
  have hallocEq : allocIndices W = allocIndices v ++ [index] := by
    unfold allocIndices
    exact allocFrom_extend v W index hge hi1 (fun m hm => (hWsame m hm).1) hWmid hWidxa
      (index + 1) 0 (by omega) (by omega)
  refine ⟨hi1, hWsame, hWidxa, by rw [hi4], by rw [hi4],
    ?_⟩
  rw [chainFrom_eq_allocIndices W hWWF, chainFrom_eq_allocIndices v hWF, hallocEq]

/-- Witness for `kvVectorSetEntry_grow_preserves`: growing the two-slot
`c3Vector` to six slots by setting index 5, with a relocating realloc. -/
theorem kvVectorSetEntry_grow_preserves_witness :
    (kvVectorSetEntry_ c3Vector 5 7 70 (some 1) true).arraySize = 5 + 1 ∧
    (∀ i, i < c3Vector.arraySize →
      ((kvVectorSetEntry_ c3Vector 5 7 70 (some 1) true).slot i).allocated
          = (c3Vector.slot i).allocated ∧
      ((kvVectorSetEntry_ c3Vector 5 7 70 (some 1) true).slot i).key = (c3Vector.slot i).key ∧
      ((kvVectorSetEntry_ c3Vector 5 7 70 (some 1) true).slot i).value
          = (c3Vector.slot i).value) ∧
    ((kvVectorSetEntry_ c3Vector 5 7 70 (some 1) true).slot 5).allocated = true ∧
    ((kvVectorSetEntry_ c3Vector 5 7 70 (some 1) true).slot 5).key = 7 ∧
    ((kvVectorSetEntry_ c3Vector 5 7 70 (some 1) true).slot 5).value = 70 ∧
    chainFrom (kvVectorSetEntry_ c3Vector 5 7 70 (some 1) true)
      = chainFrom c3Vector ++ [5] :=
  kvVectorSetEntry_grow_preserves c3Vector 5 7 70 1 true (by decide) (by decide)


/-- Witness for `vectorSort_reverse` on `sortVector` (keys 5, 3, 9 at slots
0, 1, 2) under integer subtraction as the key comparator. -/
theorem vectorSort_reverse_witness :
    ∃ asc desc,
      vectorSort sortVector (fun a b => a - b) 1 = some asc ∧
      vectorSort sortVector (fun a b => a - b) (-1) = some desc ∧
      desc = asc.reverse ∧
      asc.Perm (chainFrom sortVector) ∧ desc.Perm (chainFrom sortVector) :=
  vectorSort_reverse sortVector (fun a b => a - b)
    (by intro a b; ring) (by intro a b c h1 h2; dsimp only at h1 h2 ⊢; omega) (by decide)
    (by decide)

end CNext
